import Mathlib

/-!
Verification of the pagination-aware content extraction and incremental-update
engine in `src/main.py` (Yahoo news scraper).

The Python source is shallowly embedded below: pure helpers become Lean
functions; the per-row fetch loops and the batch-classification loop become
recursions over explicit page-index / batch lists, with the network modelled
as oracles (`Nat → String` for body pages, `Nat → List String` for comment
pages, an attempt-indexed outcome oracle for the Gemini call); spreadsheet
rows are lists of cell strings; a call that raises an exception is modelled
by an explicit `PyOutcome.raised` value.
-/

namespace YahooNews

/-! ### Constants (src/main.py lines 41-95) -/

def MAX_BODY_PAGES : Nat := 10

def MAX_COMMENT_PAGES : Nat := 10

def MAX_COMMENTS_TOTAL : Nat := 3000

def GEMINI_MAX_BATCH_SIZE : Nat := 100

/-- Number of columns of the Yahoo sheet header (`YAHOO_SHEET_HEADERS`,
lines 51-72): A:URL, B:title, C:posted-at, D:source, E-N:body pages 1-10,
O:comment count, P-T: the five classification columns. -/
def YAHOO_HEADERS_LEN : Nat := 20

/-- Canonical article URL stem checked with `startswith` throughout the
source (lines 268, 270, 448, 609, 803). -/
def ARTICLE_URL_STEM : String := "https://news.yahoo.co.jp/articles/"

/-- Sentinel written into body column E when page 1 yields no text
(line 636). -/
def BODY_UNAVAILABLE : String := "本文取得不可"

/-- Truncation annotation appended to a comment page block when the global
comment cap is reached (line 671). -/
def TRUNCATION_MARKER : String := "\n\n(* over 3000 comments, truncated)"

/-! ### Helpers -/

/-- Whitespace strip over the character list (structural, so that proofs
can evaluate it): drop whitespace from both ends. -/
def pyStrip (s : String) : String :=
  ⟨((s.data.dropWhile Char.isWhitespace).reverse.dropWhile Char.isWhitespace).reverse⟩

/-- Embeds `to_str_safe` (lines 107-114): `str(x).strip()`.  Sheet cells are
modelled as strings, so the conversion is a whitespace strip. -/
def to_str_safe (s : String) : String := pyStrip s

/-- Embeds Python's `str.startswith` (structural char-list version of
`String.startsWith`). -/
def startswith (s stem : String) : Bool := stem.data.isPrefixOf s.data

/-- Embeds the row padding `row.extend([""] * (len(YAHOO_SHEET_HEADERS) -
len(row)))` applied at lines 605-606 and 799-800 before a row is consumed. -/
def padRow (row : List String) : List String :=
  row ++ List.replicate (YAHOO_HEADERS_LEN - row.length) ""

/-- Result of a Python call that can raise: `ok` is a normal return,
`raised` an uncaught exception carrying a description of it. -/
inductive PyOutcome (α : Type) where
  | ok (a : α)
  | raised (exc : String)
deriving DecidableEq, Repr

/-! ### Date normalizer (`parse_post_date`, src/main.py lines 123-145)

The function first checks `raw is None` and `isinstance(raw, (int, float))`
(returning `None` for those), and for a `str` input its first operation is

    s = re.sub(r"\([\u670月火水木金土日]\)", "", s).strip()

Python's `re` module requires exactly four hexadecimal digits after a `\u`
escape, also inside a character class.  In the source the escape is the three
digits `670` followed directly by the character 月 (U+6708, not a hex digit),
so compiling this pattern raises `re.error: incomplete escape \u670 at
position 2` — evidently a slip for the literal class `[月火水木金土日]`
(月 is U+6708).  Hence for every `str` argument the function raises before
any date pattern is tried; the `strptime` cascade and the year-rollback rule
at lines 135-142 are unreachable for string inputs. -/

/-- Python value passed as `raw` to `parse_post_date`: `None`, an `int` or
`float`, a `str`, or any other object (which falls through both `if`s and
reaches the final `return None`). -/
inductive RawCellV where
  | vnone
  | vnum (x : Int)
  | vstr (s : String)
  | vother
deriving DecidableEq, Repr

/-- Exception raised when Python compiles the malformed weekday pattern of
line 132. -/
def WEEKDAY_REGEX_ERROR : String := "re.error: incomplete escape \\u670 at position 2"

/-- Normalized instants are irrelevant here (the parser can never produce
one, see above); minutes since an arbitrary epoch stand in for
`datetime` values. -/
abbrev JstInstant : Type := Int

/-- Embeds `parse_post_date(raw, today_jst)` (lines 123-145).  `None` and
numeric inputs return `None`; any `str` input reaches the `re.sub` call on
the malformed pattern and raises; other objects skip both branches and hit
the final `return None`. -/
def parse_post_date (raw : RawCellV) (_today_jst : JstInstant) : PyOutcome (Option JstInstant) :=
  match raw with
  | .vnone => .ok none
  | .vnum _ => .ok none
  | .vstr _ => .raised WEEKDAY_REGEX_ERROR
  | .vother => .ok none

/-! ### Discovered-article merge (`write_news_list_to_source`, lines 442-468)

The sheet is modelled as its list of data rows (the header row `existing[0]`
is dropped, as the source iterates `existing[1:]`). -/

/-- One element of the `articles` list handed to
`write_news_list_to_source`: the dict built at lines 397-402. -/
structure DiscArticle where
  url : String
  title : String
  postedAt : String
  source : String
deriving DecidableEq, Repr

/-- Embeds the `existing_urls` set comprehension (lines 445-449): the
trimmed first cell of every data row that is non-empty and starts with
"http".  A list stands in for the Python set; membership is the only
operation used on it. -/
def existing_urls (tableData : List (List String)) : List String :=
  tableData.filterMap fun row =>
    match row.head? with
    | some c => if startswith (to_str_safe c) "http" then some (to_str_safe c) else none
    | none => none

/-- Embeds the row built for one new article (lines 455-461): the four
metadata cells followed by blanks up to the header width. -/
def rowOfArticle (a : DiscArticle) : List String :=
  [a.url, a.title, a.postedAt, a.source] ++ List.replicate (YAHOO_HEADERS_LEN - 4) ""

/-- Embeds the `new_rows` loop of `write_news_list_to_source` (lines
451-462): keep the articles whose raw URL is not in `existing_urls`, in
discovery order, as metadata-only rows. -/
def write_news_list_new_rows (tableData : List (List String)) (articles : List DiscArticle) :
    List (List String) :=
  (articles.filter fun a => !(existing_urls tableData).contains a.url).map rowOfArticle

/-- The data rows of the Yahoo sheet after `write_news_list_to_source`
ran once: `ws.append_rows(new_rows)` (line 465). -/
def write_news_list_merged (tableData : List (List String)) (articles : List DiscArticle) :
    List (List String) :=
  tableData ++ write_news_list_new_rows tableData articles

/-! ### Body fetch loop (`fetch_details_and_update`, lines 629-652)

The network is an oracle `bodyText : Nat → String` giving the text
`fetch_article_body_page` extracts for each page number (empty string for
"no paragraphs", a 404 or a final fetch failure — all of which make
`fetch_article_body_page` return `""`).  The loop mutates `new_body_pages`
(initially the row's ten body cells) in place; the ghost field `fetched`
records which page numbers were requested, in order. -/

structure BodyState where
  pages : List String
  changed : Bool
  fetched : List Nat
deriving DecidableEq, Repr

/-- Embeds the `for page_idx in range(1, MAX_BODY_PAGES + 1)` body loop
(lines 631-643), iterating over the remaining page numbers: an empty page
breaks (writing the sentinel into column 1 if it is page 1); a non-empty
page is stored at its column when it differs from the trimmed current
cell. -/
def bodyLoopAux (bodyText : Nat → String) : List Nat → BodyState → BodyState
  | [], st => st
  | p :: rest, st =>
    let text := bodyText p
    let st := { st with fetched := st.fetched ++ [p] }
    if text = "" then
      if p = 1 then { st with pages := st.pages.set 0 BODY_UNAVAILABLE, changed := true }
      else st
    else
      let st :=
        if to_str_safe (st.pages.getD (p - 1) "") ≠ text then
          { st with pages := st.pages.set (p - 1) text, changed := true }
        else st
      bodyLoopAux bodyText rest st

/-- The body loop as run by the source, over pages `1..MAX_BODY_PAGES`,
starting from the row's current body cells with `body_changed = False`. -/
def fetchBody (bodyText : Nat → String) (initPages : List String) : BodyState :=
  bodyLoopAux bodyText (List.range' 1 MAX_BODY_PAGES)
    { pages := initPages, changed := false, fetched := [] }

/-- The body loop started on the ten blank body cells of a freshly
appended row, walking pages `1..n`.  The source runs it with
`n = MAX_BODY_PAGES`; the page bound is kept as a parameter so that the
stopping behaviour can be stated for every bound. -/
def fetchBodyFresh (bodyText : Nat → String) (n : Nat) : BodyState :=
  bodyLoopAux bodyText (List.range' 1 n)
    { pages := List.replicate MAX_BODY_PAGES "", changed := false, fetched := [] }

/-! ### Comment fetch loop (`fetch_details_and_update`, lines 654-678)

The network is an oracle `commentPages : Nat → List String` giving the
comment strings `fetch_comments_page` extracts for each page number.  The
state mirrors `all_comments` and `page_strings`; the ghost fields
`page_comments` and `page_trunc` record, per page slot, the comment list
that was rendered into it and whether the truncation marker was appended
(so `page_strings` is exactly `renderNumbered` of `page_comments` plus the
marker where `page_trunc` holds), and `fetched` records the requested page
numbers. -/

/-- Embeds `numbered = [f"[{i}] {c}" for i, c in enumerate(comments,
start=1)]` followed by `"\n\n".join(numbered)` (lines 670-676). -/
def renderNumbered (comments : List String) : String :=
  String.intercalate "\n\n"
    ((comments.enumFrom 1).map fun ic => "[" ++ toString ic.1 ++ "] " ++ ic.2)

structure CommentState where
  all_comments : List String
  page_strings : List String
  page_comments : List (List String)
  page_trunc : List Bool
  fetched : List Nat
deriving DecidableEq, Repr

/-- Embeds the `for page_idx in range(1, MAX_COMMENT_PAGES + 1)` comment
loop (lines 659-676), iterating over the remaining page numbers.  An empty
page breaks.  If adding the page's comments would push `all_comments` past
`MAX_COMMENTS_TOTAL`, the page's list is cut to the remaining budget — but
only when that budget is positive (`if remaining > 0`, line 667) — the
rendered block gets the truncation marker, and the loop breaks; otherwise
the comments are appended and the loop continues. -/
def commentLoopAux (commentPages : Nat → List String) : List Nat → CommentState → CommentState
  | [], st => st
  | p :: rest, st =>
    if commentPages p = [] then
      { st with fetched := st.fetched ++ [p] }
    else if MAX_COMMENTS_TOTAL < st.all_comments.length + (commentPages p).length then
      { all_comments :=
          if 0 < MAX_COMMENTS_TOTAL - st.all_comments.length then
            st.all_comments
              ++ (commentPages p).take (MAX_COMMENTS_TOTAL - st.all_comments.length)
          else st.all_comments
        page_strings := st.page_strings.set (p - 1)
          (renderNumbered
              (if 0 < MAX_COMMENTS_TOTAL - st.all_comments.length then
                (commentPages p).take (MAX_COMMENTS_TOTAL - st.all_comments.length)
              else commentPages p)
            ++ TRUNCATION_MARKER)
        page_comments := st.page_comments.set (p - 1)
          (if 0 < MAX_COMMENTS_TOTAL - st.all_comments.length then
            (commentPages p).take (MAX_COMMENTS_TOTAL - st.all_comments.length)
          else commentPages p)
        page_trunc := st.page_trunc.set (p - 1) true
        fetched := st.fetched ++ [p] }
    else
      commentLoopAux commentPages rest
        { st with
          all_comments := st.all_comments ++ commentPages p
          page_strings := st.page_strings.set (p - 1) (renderNumbered (commentPages p))
          page_comments := st.page_comments.set (p - 1) (commentPages p)
          fetched := st.fetched ++ [p] }

/-- Initial comment-loop state: `all_comments = []`,
`page_strings = [""] * MAX_COMMENT_PAGES` (lines 656-657). -/
def commentInitState : CommentState :=
  { all_comments := []
    page_strings := List.replicate MAX_COMMENT_PAGES ""
    page_comments := List.replicate MAX_COMMENT_PAGES []
    page_trunc := List.replicate MAX_COMMENT_PAGES false
    fetched := [] }

/-- The comment loop as run by the source, over pages
`1..MAX_COMMENT_PAGES`. -/
def fetchComments (commentPages : Nat → List String) : CommentState :=
  commentLoopAux commentPages (List.range' 1 MAX_COMMENT_PAGES) commentInitState

/-! ### Per-row processing of `fetch_details_and_update` (lines 604-702)

One iteration of the `for idx, row in enumerate(data_rows, start=2)` loop,
for a single row.  The outputs record the writes the iteration issues:
`bodyWrite` the values of the `E{idx}:N{idx}` update (absent when no body
update call is made), `commentCountWrite` the `O{idx}` update, and
`commentsRowWrite` the 15 cells written to (or appended as) the row's
record in the Comments sheet.  `bodyFetched` lists the body page numbers
requested. -/

structure RowEffects where
  bodyWrite : Option (List String)
  bodyFetched : List Nat
  commentCountWrite : Option String
  commentsRowWrite : Option (List String)
  commentFetched : List Nat
deriving DecidableEq, Repr

/-- Effects of a row the loop skips (`continue` at line 610). -/
def noRowEffects : RowEffects :=
  { bodyWrite := none, bodyFetched := [], commentCountWrite := none
    commentsRowWrite := none, commentFetched := [] }

/-- Embeds one iteration of the row loop of `fetch_details_and_update`
(lines 604-702): pad the row, skip it unless its trimmed URL cell starts
with the article stem, gate the body fetch on `need_body = not
to_str_safe(body_pages[0])` (line 619, with the `E:N` update issued only if
`body_changed`), and unconditionally run the comment fetch
(`need_comments = True`, line 620), writing the `O` cell and the Comments
row `[url, title, post_date, source, count] + page_strings`. -/
def processRow (bodyText : Nat → String) (commentPages : Nat → List String)
    (row : List String) : RowEffects :=
  let row := padRow row
  let url := to_str_safe (row.getD 0 "")
  if !startswith url ARTICLE_URL_STEM then noRowEffects
  else
    let title := to_str_safe (row.getD 1 "")
    let post_date := to_str_safe (row.getD 2 "")
    let source := to_str_safe (row.getD 3 "")
    let body_pages := (row.drop 4).take MAX_BODY_PAGES
    let need_body := to_str_safe (body_pages.getD 0 "") = ""
    let bodyRes := fetchBody bodyText body_pages
    let cRes := fetchComments commentPages
    let new_comment_count := toString cRes.all_comments.length
    { bodyWrite := if need_body ∧ bodyRes.changed then some bodyRes.pages else none
      bodyFetched := if need_body then bodyRes.fetched else []
      commentCountWrite := some new_comment_count
      commentsRowWrite :=
        some ([url, title, post_date, source, new_comment_count] ++ cRes.page_strings)
      commentFetched := cRes.fetched }

/-! ### Gemini batch analysis (`analyze_with_gemini_batch`, lines 708-780)

The response is modelled post-JSON-decode.  An element of the decoded
results array is either a JSON object (a partial record of an `index` value
of arbitrary JSON type and five optional string fields) or a non-object,
which the parse loop skips (`if not isinstance(item, dict): continue`,
lines 755-756). -/

/-- A JSON scalar standing in for the value found under `"index"`. -/
inductive JVal where
  | jnum (n : Int)
  | jstr (s : String)
  | jnull
  | jarr
  | jobj
deriving DecidableEq, Repr

/-- Accumulates the value of a decimal digit string; fails on a non-digit
character. -/
def digitsVal : List Char → Nat → Option Nat
  | [], acc => some acc
  | c :: cs, acc =>
    if c.isDigit then digitsVal cs (acc * 10 + (c.toNat - 48)) else none

/-- Embeds Python `int(str)` on its common forms: surrounding whitespace,
an optional sign, then decimal digits; anything else raises (modelled as
`none`). -/
def pyStrToInt (s : String) : Option Int :=
  match (pyStrip s).data with
  | [] => none
  | '-' :: ds =>
    match ds with
    | [] => none
    | _ => (digitsVal ds 0).map fun n => -(n : Int)
  | '+' :: ds =>
    match ds with
    | [] => none
    | _ => (digitsVal ds 0).map fun n => (n : Int)
  | ds => (digitsVal ds 0).map fun n => (n : Int)

/-- Embeds Python `int(v)` as used at line 853: succeeds on an int
(floats, which also succeed by truncation, are folded into `jnum`), on a
string holding an optionally signed integer literal, and fails — raising,
which the `except` turns into 0 — on everything else (`None`, lists,
dicts). -/
def pyIntOf : JVal → Option Int
  | .jnum n => some n
  | .jstr s => pyStrToInt s
  | .jnull => none
  | .jarr => none
  | .jobj => none

/-- A JSON object in the decoded results array: the fields
`analyze_with_gemini_batch` reads, each absent when the object lacks the
key. -/
structure RawItem where
  index : Option JVal
  company_info : Option String
  category : Option String
  sentiment : Option String
  nissan_related : Option String
  nissan_negative : Option String
deriving DecidableEq, Repr

/-- An element of the decoded results array: a JSON object or not. -/
inductive RespElem where
  | obj (d : RawItem)
  | nonObj
deriving DecidableEq, Repr

/-- An element of the list `analyze_with_gemini_batch` returns (lines
757-766): every field defaulted via `item.get(key, default)`. -/
structure GItem where
  index : JVal
  company_info : String
  category : String
  sentiment : String
  nissan_related : String
  nissan_negative : String
deriving DecidableEq, Repr

/-- Embeds the `out.append({...})` defaults of lines 757-766. -/
def parseItem (d : RawItem) : GItem :=
  { index := d.index.getD (.jnum 0)
    company_info := d.company_info.getD "N/A"
    category := d.category.getD "N/A"
    sentiment := d.sentiment.getD "N/A"
    nissan_related := d.nissan_related.getD "N/A"
    nissan_negative := d.nissan_negative.getD "N/A" }

/-- Embeds the `for item in results` parse loop (lines 753-767): non-object
elements are skipped, object elements are defaulted. -/
def parseResults (results : List RespElem) : List GItem :=
  results.filterMap fun
    | .obj d => some (parseItem d)
    | .nonObj => none

/-- What one `GEMINI_CLIENT.models.generate_content` call comes back as,
seen from `analyze_with_gemini_batch`: a decoded JSON body, a body that is
not valid JSON (`json.JSONDecodeError` branch, lines 740-743), a
`ResourceExhausted` exception, or any other exception (the generic
`except`, lines 772-779). -/
inductive CallOutcome where
  | arr (results : List RespElem)
  | objResults (results : List RespElem)
  | otherShape
  | badJson
  | quota
  | transient
deriving DecidableEq, Repr

/-- Embeds the `for attempt in range(MAX_RETRIES)` dispatch loop of
`analyze_with_gemini_batch` (lines 729-780) over the remaining attempt
numbers, with `oracle` giving each attempt's outcome.  A decoded list (or
an object with a `"results"` list) is parsed and returned; bad JSON or an
unexpected shape returns `[]`; `ResourceExhausted` re-raises immediately
(lines 769-771); any other exception retries until the attempts run out,
then returns `[]`.  The second component records the attempts made. -/
def geminiAttemptLoop (oracle : Nat → CallOutcome) :
    List Nat → PyOutcome (List GItem) × List Nat
  | [] => (.ok [], [])
  | attempt :: rest =>
    match oracle attempt with
    | .arr results => (.ok (parseResults results), [attempt])
    | .objResults results => (.ok (parseResults results), [attempt])
    | .otherShape => (.ok [], [attempt])
    | .badJson => (.ok [], [attempt])
    | .quota => (.raised "ResourceExhausted", [attempt])
    | .transient =>
      match rest with
      | [] => (.ok [], [attempt])
      | _ :: _ =>
        let r := geminiAttemptLoop oracle rest
        (r.1, attempt :: r.2)

/-- Number of attempts of the dispatch loop (`MAX_RETRIES = 3`,
line 729). -/
def GEMINI_MAX_RETRIES : Nat := 3

/-- `analyze_with_gemini_batch` restricted to its dispatch/retry behaviour
(the prompt construction does not affect any claim). -/
def analyze_with_gemini_batch (oracle : Nat → CallOutcome) :
    PyOutcome (List GItem) × List Nat :=
  geminiAttemptLoop oracle (List.range GEMINI_MAX_RETRIES)

/-! ### Target collection (`analyze_and_update_sheet`, lines 797-830) -/

/-- Embeds `pages = [p for p in pages if to_str_safe(p) and p !=
"本文取得不可"]` (line 807) on a padded row: the non-blank,
non-sentinel body cells.  Note the sentinel comparison is on the raw cell,
the blank test on the trimmed one, exactly as in the source. -/
def targetBodyPages (row : List String) : List String :=
  ((row.drop 4).take MAX_BODY_PAGES).filter fun p =>
    (to_str_safe p != "") && (p != BODY_UNAVAILABLE)

/-- Embeds the completeness test of lines 815-821: all five trimmed
classification cells non-empty (`if company_info and category and ...:
continue`). -/
def classificationComplete (row : List String) : Bool :=
  (to_str_safe (row.getD 15 "") != "") && (to_str_safe (row.getD 16 "") != "")
    && (to_str_safe (row.getD 17 "") != "") && (to_str_safe (row.getD 18 "") != "")
    && (to_str_safe (row.getD 19 "") != "")

/-- A row is a classification target iff its trimmed URL starts with the
article stem (line 803), it has at least one usable body page (line 808),
and its five classification cells are not all filled (line 820). -/
def isTargetRow (row0 : List String) : Bool :=
  let row := padRow row0
  startswith (to_str_safe (row.getD 0 "")) ARTICLE_URL_STEM
    && !(targetBodyPages row).isEmpty
    && !classificationComplete row

/-- Embeds the `body_text` join of lines 811-813. -/
def targetBodyText (pages : List String) : String :=
  String.intercalate "\n\n"
    (pages.enum.map fun ip => "【Page" ++ toString (ip.1 + 1) ++ "】\n" ++ to_str_safe ip.2)

/-- One entry of the `targets` list (lines 823-830). -/
structure GTarget where
  row_index : Nat
  url : String
  title : String
  body : String
deriving DecidableEq, Repr, Inhabited

/-- The target record built for a row at sheet row number `idx`. -/
def mkTarget (row : List String) (idx : Nat) : GTarget :=
  { row_index := idx
    url := to_str_safe ((padRow row).getD 0 "")
    title := to_str_safe ((padRow row).getD 1 "")
    body := targetBodyText (targetBodyPages (padRow row)) }

/-- Embeds the target-collection loop `for idx, row in
enumerate(data_rows, start=2)` (lines 798-830): rows are visited in order,
sheet row numbers start at 2, non-targets are skipped. -/
def collectTargetsAux : List (List String) → Nat → List GTarget
  | [], _ => []
  | row :: rest, idx =>
    if isTargetRow row then mkTarget row idx :: collectTargetsAux rest (idx + 1)
    else collectTargetsAux rest (idx + 1)

def collectTargets (tableData : List (List String)) : List GTarget :=
  collectTargetsAux tableData 2

/-! ### Batch reconciliation (`analyze_and_update_sheet`, lines 839-877) -/

/-- Embeds `int(r.get("index", 0))` under `try/except` (lines 852-856):
the parsed item's index value converted to an int, 0 when the conversion
raises. -/
def idxInt (r : GItem) : Int :=
  (pyIntOf r.index).getD 0

/-- Embeds the `result_by_index` dict build (lines 850-856): sequential
assignments `result_by_index[idx_int] = r`, so among items with the same
converted index the last one wins. -/
def buildResultByIndex (results : List GItem) : Int → Option GItem :=
  results.foldl (fun m r => fun k => if k = idxInt r then some r else m k) fun _ => none

/-- Embeds the per-row classification write `ws.update(range_name=
f"P{row_idx}:T{row_idx}", ...)` (lines 870-874) on the table model:
columns P-T (0-based cells 15-19) of the sheet row `row_idx` (data
position `row_idx - 2`) are replaced by the item's five fields, every
other cell kept. -/
def setPT (row : List String) (r : GItem) : List String :=
  (padRow row).take 15
    ++ [r.company_info, r.category, r.sentiment, r.nissan_related, r.nissan_negative]
    ++ (padRow row).drop 20

def updatePT (table : List (List String)) (row_index : Nat) (r : GItem) : List (List String) :=
  table.set (row_index - 2) (setPT (table.getD (row_index - 2) []) r)

/-- Table plus the log of issued P-T writes for the run. -/
structure ReconcileState where
  table : List (List String)
  writes : List (Nat × GItem)
deriving DecidableEq, Repr

/-- Embeds the reconciliation loop `for local_idx, item in
enumerate(batch)` (lines 858-876): look the target's group-local index up
in `result_by_index`; on a miss, `continue` (the parsed items always carry
six keys, so the dict values are never falsy and `if not r` only fires on
a miss); on a hit, write the five fields to the target's row. -/
def reconcileGroupAux (rmap : Int → Option GItem) :
    List GTarget → Nat → ReconcileState → ReconcileState
  | [], _, st => st
  | t :: rest, local_idx, st =>
    match rmap (Int.ofNat local_idx) with
    | none => reconcileGroupAux rmap rest (local_idx + 1) st
    | some r =>
      reconcileGroupAux rmap rest (local_idx + 1)
        { table := updatePT st.table t.row_index r
          writes := st.writes ++ [(t.row_index, r)] }

/-- Reconciliation of one batch against one parsed response. -/
def reconcileGroup (table : List (List String)) (batch : List GTarget)
    (results : List GItem) : ReconcileState :=
  reconcileGroupAux (buildResultByIndex results) batch 0 { table := table, writes := [] }

/-! ### Batch loop (`analyze_and_update_sheet`, lines 839-877) -/

/-- Fuel-driven chunking mirroring `for i in range(0, len(targets),
GEMINI_MAX_BATCH_SIZE): batch = targets[i : i + GEMINI_MAX_BATCH_SIZE]`
(lines 839-840). -/
def toBatchesAux {α : Type} : Nat → List α → List (List α)
  | 0, _ => []
  | _, [] => []
  | fuel + 1, l =>
    l.take GEMINI_MAX_BATCH_SIZE :: toBatchesAux fuel (l.drop GEMINI_MAX_BATCH_SIZE)

def batchesOf {α : Type} (l : List α) : List (List α) :=
  toBatchesAux l.length l

/-- Run state of the whole classification phase: the table, the write log,
and the list of batch numbers for which a dispatch call was made. -/
structure PhaseState where
  table : List (List String)
  writes : List (Nat × GItem)
  dispatched : List Nat
deriving DecidableEq, Repr

/-- Embeds the batch loop of `analyze_and_update_sheet` (lines 839-877)
with `oracle b` the attempt-outcome oracle of batch `b`'s dispatch call.
A `ResourceExhausted` escaping `analyze_with_gemini_batch` is caught and
breaks the loop (lines 844-848), leaving the state — and so every write
already committed — as it stands; otherwise the batch is reconciled and
the loop continues. -/
def analyzePhaseLoop (oracle : Nat → Nat → CallOutcome) :
    List (List GTarget) → Nat → PhaseState → PhaseState
  | [], _, st => st
  | batch :: rest, b, st =>
    let st := { st with dispatched := st.dispatched ++ [b] }
    match (analyze_with_gemini_batch (oracle b)).1 with
    | .raised _ => st
    | .ok results =>
      let rc := reconcileGroupAux (buildResultByIndex results) batch 0
        { table := st.table, writes := st.writes }
      analyzePhaseLoop oracle rest (b + 1)
        { table := rc.table, writes := rc.writes, dispatched := st.dispatched }

/-- The classification phase of one run over the data rows of the Yahoo
sheet. -/
def analyze_and_update_sheet (oracle : Nat → Nat → CallOutcome)
    (tableData : List (List String)) : PhaseState :=
  analyzePhaseLoop oracle (batchesOf (collectTargets tableData)) 0
    { table := tableData, writes := [], dispatched := [] }

/-- A second target row, at the next sheet row, for the C2 witness. -/
def targetRowY : List String :=
  ["https://news.yahoo.co.jp/articles/y", "u", "e", "v", "other body"]

/-- A dispatch oracle whose every call reports quota exhaustion, for the
C8 witness. -/
def oracleQuota : Nat → Nat → CallOutcome := fun _ _ => .quota

/-- A data row that is a classification target, for concrete phase runs. -/
def targetRowX : List String :=
  ["https://news.yahoo.co.jp/articles/x", "t", "d", "s", "body"]

/-- A well-formed classifier response item addressed to index 0, for the
C10 theorem. -/
def gItemGood : GItem :=
  { index := .jnum 0, company_info := "G", category := "g", sentiment := "g",
    nissan_related := "g", nissan_negative := "g" }

/-- A response object whose `index` value is JSON `null` — `int(None)`
raises, so its converted index is 0. -/
def rawNullIndex : RawItem :=
  { index := some .jnull, company_info := none, category := none,
    sentiment := none, nissan_related := none, nissan_negative := none }

/-- A response object with no `index` key at all. -/
def rawMissingIndex : RawItem :=
  { index := none, company_info := some "A", category := none,
    sentiment := none, nissan_related := none, nissan_negative := none }

/-- A response object whose `index` value is a non-numeric string. -/
def rawStrIndex : RawItem :=
  { index := some (.jstr "seven"), company_info := none, category := none,
    sentiment := none, nissan_related := none, nissan_negative := none }

/-- A discovered article with a well-formed article URL, for the C5
witness. -/
def artA : DiscArticle :=
  { url := "https://news.yahoo.co.jp/articles/a", title := "t", postedAt := "d", source := "s" }

/-- A discovered "article" whose URL does not start with "http" — legal
input to the merge function, used for the C5 counterexample. -/
def artX : DiscArticle :=
  { url := "x", title := "t", postedAt := "d", source := "s" }

/-- A body-page oracle for the C3 witness: pages 1 and 2 have text, page 3
is the first page with no paragraphs. -/
def bodyTextTwoPages : Nat → String
  | 1 => "p1"
  | 2 => "p2"
  | _ => ""

/-! ### Concrete comment-page oracles used to settle C1 -/

/-- A comment thread whose page 1 fills the cap exactly and whose page 2
still has one more comment. -/
def pagesCapExact : Nat → List String
  | 1 => List.replicate MAX_COMMENTS_TOTAL "c"
  | 2 => ["d"]
  | _ => []

/-- A comment thread whose page 2 overflows the cap with one slot of
budget left. -/
def pagesCapNormal : Nat → List String
  | 1 => List.replicate (MAX_COMMENTS_TOTAL - 1) "c"
  | 2 => ["a", "b"]
  | _ => []

/-- Sum of the comment counts of the page blocks before slot `j` of a
comment-fetch result — the "comments in all prior blocks" of the cap
invariant. -/
def priorBlockSum (st : CommentState) (j : Nat) : Nat :=
  ((st.page_comments.take j).map List.length).sum

/-- Comment-loop invariant before the page numbered `q + 1` is fetched:
slot sizes are fixed, slots from `q` on are untouched, no truncation
marker has been placed, the collected total equals the sum of the filled
blocks and respects the cap, and only pages up to `q` were fetched. -/
def CInv (q : Nat) (st : CommentState) : Prop :=
  st.page_comments.length = MAX_COMMENT_PAGES ∧
  st.page_strings.length = MAX_COMMENT_PAGES ∧
  st.page_trunc.length = MAX_COMMENT_PAGES ∧
  (∀ i, q ≤ i → st.page_comments.getD i [] = [] ∧ st.page_strings.getD i "" = "") ∧
  (∀ i, st.page_trunc.getD i false = false) ∧
  st.all_comments.length = priorBlockSum st q ∧
  st.all_comments.length ≤ MAX_COMMENTS_TOTAL ∧
  (∀ x ∈ st.fetched, x ≤ q)

/-- The cap discipline of a finished comment fetch: the collected total
never exceeds the cap and, when some slot `j` carries the truncation
marker, that slot holds exactly the remaining budget (whenever the prior
blocks left any), its rendered string ends in the marker, no later slot is
populated, and no later page was fetched. -/
def capOk (R : CommentState) : Prop :=
  R.all_comments.length ≤ MAX_COMMENTS_TOTAL ∧
  ∀ j, R.page_trunc.getD j false = true →
    (priorBlockSum R j < MAX_COMMENTS_TOTAL →
      (R.page_comments.getD j []).length = MAX_COMMENTS_TOTAL - priorBlockSum R j) ∧
    R.page_strings.getD j "" = renderNumbered (R.page_comments.getD j []) ++ TRUNCATION_MARKER ∧
    (∀ i, j < i → R.page_comments.getD i [] = [] ∧ R.page_strings.getD i "" = "") ∧
    (∀ x ∈ R.fetched, x ≤ j + 1)

/-! ## Theorems -/

/-! ### Shared list lemmas -/

theorem getD_set_self {α : Type} (l : List α) (i : Nat) (a d : α) (h : i < l.length) :
    (l.set i a).getD i d = a := by
  simp [List.getD_eq_getElem?_getD, List.getElem?_set_self, h]

theorem getD_set_ne {α : Type} (l : List α) (i j : Nat) (a d : α) (h : i ≠ j) :
    (l.set i a).getD j d = l.getD j d := by
  simp [List.getD_eq_getElem?_getD, List.getElem?_set_ne h]

theorem replicate_ne_nil_of_pos {α : Type} (n : Nat) (a : α) (h : 0 < n) :
    List.replicate n a ≠ [] := by
  intro hh
  have := congrArg List.length hh
  simp at this
  omega

theorem getD_replicate_self {α : Type} (n i : Nat) (a : α) :
    (List.replicate n a).getD i a = a := by
  induction n generalizing i with
  | zero => simp [List.getD]
  | succ m ih =>
    cases i with
    | zero => simp [List.replicate]
    | succ k =>
      rw [List.replicate]
      simp only [List.getD_cons_succ]
      exact ih k

theorem take_set_of_le {α : Type} (l : List α) (i j : Nat) (a : α) (h : j ≤ i) :
    (l.set i a).take j = l.take j := by
  induction l generalizing i j with
  | nil => simp
  | cons x xs ih =>
    cases j with
    | zero => simp
    | succ k =>
      cases i with
      | zero => omega
      | succ m =>
        simp only [List.set_cons_succ, List.take_succ_cons]
        rw [ih m k (Nat.succ_le_succ_iff.mp h)]

theorem take_set_succ_self {α : Type} (l : List α) (i : Nat) (a : α) (h : i < l.length) :
    (l.set i a).take (i + 1) = l.take i ++ [a] := by
  induction l generalizing i with
  | nil => simp at h
  | cons x xs ih =>
    cases i with
    | zero => simp
    | succ m =>
      simp only [List.set_cons_succ, List.take_succ_cons, List.cons_append]
      rw [ih m (by simpa using h)]

theorem getD_drop_add {α : Type} (l : List α) (n i : Nat) (d : α) :
    (l.drop n).getD i d = l.getD (n + i) d := by
  simp [List.getD_eq_getElem?_getD, List.getElem?_drop]

theorem getD_take_lt {α : Type} (l : List α) (n i : Nat) (d : α) (h : i < n) :
    (l.take n).getD i d = l.getD i d := by
  simp [List.getD_eq_getElem?_getD, List.getElem?_take, h]

theorem set_append_len {α : Type} (A B : List α) (x : α) :
    (A ++ B).set A.length x = A ++ B.set 0 x := by
  induction A with
  | nil => simp
  | cons a as ih => simp [ih]

theorem getD_append_len {α : Type} (A B : List α) (d : α) :
    (A ++ B).getD A.length d = B.getD 0 d := by
  induction A with
  | nil => simp
  | cons a as ih => simpa using ih

/-! ### C1: the comment cap discipline -/

/-- Comment-loop invariant lemma: from a state satisfying `CInv q`,
running the loop on the remaining pages `q+1, q+2, ...` yields a state
satisfying the cap discipline `capOk`. -/
theorem commentLoopAux_capOk (pages : Nat → List String) :
    ∀ (n q : Nat) (st : CommentState),
      q + 1 + n ≤ MAX_COMMENT_PAGES + 1 → CInv q st →
      capOk (commentLoopAux pages (List.range' (q + 1) n) st) := by
  intro n
  induction n with
  | zero =>
    intro q st _ hinv
    obtain ⟨_, _, _, _, htr, _, hle, _⟩ := hinv
    have h0 : List.range' (q + 1) 0 = [] := rfl
    rw [h0]
    simp only [commentLoopAux, capOk]
    refine ⟨hle, fun j hj => ?_⟩
    rw [htr j] at hj
    exact absurd hj (by simp)
  | succ n ih =>
    intro q st hbound hinv
    obtain ⟨hc1, hc2, hc3, hblank, htr, hsum, hle, hfet⟩ := hinv
    have hq10 : q < MAX_COMMENT_PAGES := by
      simp only [MAX_COMMENT_PAGES] at hbound ⊢; omega
    rw [List.range'_succ]
    simp only [commentLoopAux]
    by_cases hcne : pages (q + 1) = []
    · rw [if_pos hcne]
      simp only [capOk]
      refine ⟨hle, fun j hj => ?_⟩
      rw [htr j] at hj
      exact absurd hj (by simp)
    · rw [if_neg hcne]
      by_cases hov :
          MAX_COMMENTS_TOTAL < st.all_comments.length + (pages (q + 1)).length
      · rw [if_pos hov]
        simp only [Nat.add_sub_cancel, capOk]
        have hprior :
            priorBlockSum
              { all_comments :=
                  if 0 < MAX_COMMENTS_TOTAL - st.all_comments.length then
                    st.all_comments
                      ++ (pages (q + 1)).take (MAX_COMMENTS_TOTAL - st.all_comments.length)
                  else st.all_comments
                page_strings := st.page_strings.set q
                  (renderNumbered
                      (if 0 < MAX_COMMENTS_TOTAL - st.all_comments.length then
                        (pages (q + 1)).take (MAX_COMMENTS_TOTAL - st.all_comments.length)
                      else pages (q + 1))
                    ++ TRUNCATION_MARKER)
                page_comments := st.page_comments.set q
                  (if 0 < MAX_COMMENTS_TOTAL - st.all_comments.length then
                    (pages (q + 1)).take (MAX_COMMENTS_TOTAL - st.all_comments.length)
                  else pages (q + 1))
                page_trunc := st.page_trunc.set q true
                fetched := st.fetched ++ [q + 1] } q = st.all_comments.length := by
          simp only [priorBlockSum]
          rw [take_set_of_le _ _ _ _ (le_refl q)]
          exact hsum.symm
        constructor
        · dsimp only
          split_ifs with hrem
          · rw [List.length_append, List.length_take]
            have := Nat.min_le_left (MAX_COMMENTS_TOTAL - st.all_comments.length)
              (pages (q + 1)).length
            omega
          · exact hle
        · intro j hj
          have hjq : j = q := by
            by_contra hne
            rw [getD_set_ne _ _ _ _ _ (fun hh => hne hh.symm)] at hj
            rw [htr j] at hj
            exact absurd hj (by simp)
          subst j
          refine ⟨?_, ?_, ?_, ?_⟩
          · intro hlt
            rw [hprior] at hlt ⊢
            have hrem : 0 < MAX_COMMENTS_TOTAL - st.all_comments.length := by omega
            rw [getD_set_self _ _ _ _ (by rw [hc1]; exact hq10), if_pos hrem,
              List.length_take]
            have hmin :
                min (MAX_COMMENTS_TOTAL - st.all_comments.length) (pages (q + 1)).length
                  = MAX_COMMENTS_TOTAL - st.all_comments.length :=
              Nat.min_eq_left (by omega)
            rw [hmin]
          · rw [getD_set_self _ _ _ _ (by rw [hc2]; exact hq10),
              getD_set_self _ _ _ _ (by rw [hc1]; exact hq10)]
          · intro i hqi
            rw [getD_set_ne _ _ _ _ _ (Nat.ne_of_lt hqi),
              getD_set_ne _ _ _ _ _ (Nat.ne_of_lt hqi)]
            exact hblank i (le_of_lt hqi)
          · intro x hx
            rcases List.mem_append.mp hx with h | h
            · exact le_trans (hfet x h) (by omega)
            · simp at h; omega
      · rw [if_neg hov]
        apply ih (q + 1)
        · omega
        · refine ⟨?_, ?_, ?_, ?_, ?_, ?_, ?_, ?_⟩
          · dsimp only; rw [List.length_set]; exact hc1
          · dsimp only; rw [List.length_set]; exact hc2
          · dsimp only; exact hc3
          · intro i hi
            dsimp only
            rw [getD_set_ne _ _ _ _ _ (by omega), getD_set_ne _ _ _ _ _ (by omega)]
            exact hblank i (by omega)
          · dsimp only; exact htr
          · simp only [priorBlockSum, Nat.add_sub_cancel]
            rw [take_set_succ_self _ _ _ (by rw [hc1]; exact hq10)]
            simp only [List.map_append, List.sum_append, List.length_append,
              List.map_cons, List.map_nil, List.sum_cons, List.sum_nil]
            have : st.all_comments.length = priorBlockSum st q := hsum
            simp only [priorBlockSum] at this
            omega
          · dsimp only
            rw [List.length_append]
            omega
          · intro x hx
            dsimp only at hx
            rcases List.mem_append.mp hx with h | h
            · exact le_trans (hfet x h) (by omega)
            · simp at h; omega

/-- Characterization of the comment loop on a thread whose page 1 stays
within the cap and whose page 2 overflows it: page 1 is kept whole, page 2
is cut to the remaining budget when that budget is positive — and kept
whole when it is zero — with the truncation marker, and no page past 2 is
fetched. -/
theorem fetchComments_two_pages (pages : Nat → List String) (c1 c2 : List String)
    (hp1 : pages 1 = c1) (hp2 : pages 2 = c2) (h1 : c1 ≠ []) (h2 : c2 ≠ [])
    (hle : c1.length ≤ MAX_COMMENTS_TOTAL)
    (hover : MAX_COMMENTS_TOTAL < c1.length + c2.length) :
    fetchComments pages =
      { all_comments :=
          if 0 < MAX_COMMENTS_TOTAL - c1.length then
            c1 ++ c2.take (MAX_COMMENTS_TOTAL - c1.length)
          else c1
        page_strings :=
          [renderNumbered c1,
            renderNumbered (if 0 < MAX_COMMENTS_TOTAL - c1.length then
              c2.take (MAX_COMMENTS_TOTAL - c1.length) else c2) ++ TRUNCATION_MARKER,
            "", "", "", "", "", "", "", ""]
        page_comments :=
          [c1,
            if 0 < MAX_COMMENTS_TOTAL - c1.length then
              c2.take (MAX_COMMENTS_TOTAL - c1.length) else c2,
            [], [], [], [], [], [], [], []]
        page_trunc := [false, true, false, false, false, false, false, false, false, false]
        fetched := [1, 2] } := by
  have hr : List.range' 1 MAX_COMMENT_PAGES = [1, 2, 3, 4, 5, 6, 7, 8, 9, 10] := rfl
  have hle' : ¬ MAX_COMMENTS_TOTAL < c1.length := Nat.not_lt.mpr hle
  rw [fetchComments, hr]
  simp only [commentLoopAux, commentInitState, hp1, hp2]
  simp [h1, h2, hle', hover, List.set]

/-- C1, amended.  For every comment-page oracle, the collected total never
exceeds `MAX_COMMENTS_TOTAL`; when some page slot `j` carries the
truncation marker, then — provided the blocks before it stay strictly
below the cap — it holds exactly `cap - (sum of prior blocks)` comments,
its rendered block is the 1-indexed enumeration followed by the truncation
marker, no later slot is populated, and no page past `j + 1` is fetched.
(The source's `if remaining > 0` guard at line 667 makes the
exact-remaining-budget part fail when the prior blocks already fill the
cap exactly; see the counterexample.) -/
theorem comment_cap_discipline (pages : Nat → List String) :
    (fetchComments pages).all_comments.length ≤ MAX_COMMENTS_TOTAL ∧
    ∀ j, (fetchComments pages).page_trunc.getD j false = true →
      (priorBlockSum (fetchComments pages) j < MAX_COMMENTS_TOTAL →
        ((fetchComments pages).page_comments.getD j []).length
          = MAX_COMMENTS_TOTAL - priorBlockSum (fetchComments pages) j) ∧
      (fetchComments pages).page_strings.getD j ""
        = renderNumbered ((fetchComments pages).page_comments.getD j [])
            ++ TRUNCATION_MARKER ∧
      (∀ i, j < i → (fetchComments pages).page_comments.getD i [] = []
        ∧ (fetchComments pages).page_strings.getD i "" = "") ∧
      (∀ x ∈ (fetchComments pages).fetched, x ≤ j + 1) := by
  have hinv : CInv 0 commentInitState := by
    refine ⟨rfl, rfl, rfl, ?_, ?_, ?_, ?_, ?_⟩
    · intro i _
      exact ⟨getD_replicate_self _ _ _, getD_replicate_self _ _ _⟩
    · intro i
      exact getD_replicate_self _ _ _
    · rfl
    · simp [commentInitState, MAX_COMMENTS_TOTAL]
    · intro x hx
      simp [commentInitState] at hx
  have h := commentLoopAux_capOk pages MAX_COMMENT_PAGES 0 commentInitState
    (by omega) hinv
  simpa [capOk, fetchComments] using h

/-- C1 counterexample to the claim as stated: when page 1 fills the cap
exactly (3000 comments) and page 2 still has one more comment, the loop
marks the page-2 slot with the truncation marker but — because of the
`if remaining > 0` guard — renders the whole overflowing page into it: the
marked block holds 1 comment, not `cap - (sum of prior blocks) = 0`. -/
theorem comment_cap_exact_counterexample :
    (fetchComments pagesCapExact).page_trunc.getD 1 false = true ∧
    priorBlockSum (fetchComments pagesCapExact) 1 = MAX_COMMENTS_TOTAL ∧
    ((fetchComments pagesCapExact).page_comments.getD 1 []).length = 1 ∧
    ((fetchComments pagesCapExact).page_comments.getD 1 []).length
      ≠ MAX_COMMENTS_TOTAL - priorBlockSum (fetchComments pagesCapExact) 1 := by
  obtain ⟨c1, hlen, hch⟩ :
      ∃ c1 : List String, c1.length = MAX_COMMENTS_TOTAL ∧
        fetchComments pagesCapExact =
          { all_comments :=
              if 0 < MAX_COMMENTS_TOTAL - c1.length then
                c1 ++ List.take (MAX_COMMENTS_TOTAL - c1.length) ["d"]
              else c1
            page_strings :=
              [renderNumbered c1,
                renderNumbered (if 0 < MAX_COMMENTS_TOTAL - c1.length then
                  List.take (MAX_COMMENTS_TOTAL - c1.length) ["d"] else ["d"])
                  ++ TRUNCATION_MARKER,
                "", "", "", "", "", "", "", ""]
            page_comments :=
              [c1,
                if 0 < MAX_COMMENTS_TOTAL - c1.length then
                  List.take (MAX_COMMENTS_TOTAL - c1.length) ["d"] else ["d"],
                [], [], [], [], [], [], [], []]
            page_trunc := [false, true, false, false, false, false, false, false, false, false]
            fetched := [1, 2] } := by
    refine ⟨List.replicate MAX_COMMENTS_TOTAL "c", List.length_replicate _ _, ?_⟩
    exact fetchComments_two_pages pagesCapExact _ ["d"] rfl rfl
      (replicate_ne_nil_of_pos _ _ (by norm_num [MAX_COMMENTS_TOTAL])) (by simp)
      (by simp only [List.length_replicate]; exact Nat.le_refl _)
      (by simp only [List.length_replicate, List.length_cons, List.length_nil]; omega)
  have hzero : MAX_COMMENTS_TOTAL - c1.length = 0 := by omega
  rw [hch]
  refine ⟨by simp, ?_, ?_, ?_⟩
  · simp [priorBlockSum, hlen]
  · simp [hzero]
  · simp [priorBlockSum, hzero, hlen]

/-- Witness for the amended C1 theorem at a concrete truncating input:
page 1 holds 2999 comments, page 2 has 2 more, so the page-2 block is cut
to exactly one comment, carries the marker, and the fetch stops there. -/
theorem comment_cap_discipline_witness :
    (fetchComments pagesCapNormal).all_comments.length ≤ MAX_COMMENTS_TOTAL ∧
    ((fetchComments pagesCapNormal).page_comments.getD 1 []).length
      = MAX_COMMENTS_TOTAL - priorBlockSum (fetchComments pagesCapNormal) 1 ∧
    (fetchComments pagesCapNormal).page_strings.getD 1 ""
      = renderNumbered ((fetchComments pagesCapNormal).page_comments.getD 1 [])
          ++ TRUNCATION_MARKER ∧
    (fetchComments pagesCapNormal).page_comments.getD 2 [] = [] ∧
    ∀ x ∈ (fetchComments pagesCapNormal).fetched, x ≤ 2 := by
  obtain ⟨c1, hlen, hch⟩ :
      ∃ c1 : List String, c1.length = MAX_COMMENTS_TOTAL - 1 ∧
        fetchComments pagesCapNormal =
          { all_comments :=
              if 0 < MAX_COMMENTS_TOTAL - c1.length then
                c1 ++ List.take (MAX_COMMENTS_TOTAL - c1.length) ["a", "b"]
              else c1
            page_strings :=
              [renderNumbered c1,
                renderNumbered (if 0 < MAX_COMMENTS_TOTAL - c1.length then
                  List.take (MAX_COMMENTS_TOTAL - c1.length) ["a", "b"] else ["a", "b"])
                  ++ TRUNCATION_MARKER,
                "", "", "", "", "", "", "", ""]
            page_comments :=
              [c1,
                if 0 < MAX_COMMENTS_TOTAL - c1.length then
                  List.take (MAX_COMMENTS_TOTAL - c1.length) ["a", "b"] else ["a", "b"],
                [], [], [], [], [], [], [], []]
            page_trunc := [false, true, false, false, false, false, false, false, false, false]
            fetched := [1, 2] } := by
    refine ⟨List.replicate (MAX_COMMENTS_TOTAL - 1) "c", List.length_replicate _ _, ?_⟩
    exact fetchComments_two_pages pagesCapNormal _ ["a", "b"] rfl rfl
      (replicate_ne_nil_of_pos _ _ (by norm_num [MAX_COMMENTS_TOTAL])) (by simp)
      (by simp only [List.length_replicate]; omega)
      (by simp only [List.length_replicate, List.length_cons, List.length_nil]
          norm_num [MAX_COMMENTS_TOTAL])
  have htr : (fetchComments pagesCapNormal).page_trunc.getD 1 false = true := by
    rw [hch]
    rfl
  have hpr : priorBlockSum (fetchComments pagesCapNormal) 1 < MAX_COMMENTS_TOTAL := by
    rw [hch]
    simp [priorBlockSum, hlen]
    norm_num [MAX_COMMENTS_TOTAL]
  obtain ⟨h1, h2⟩ := comment_cap_discipline pagesCapNormal
  have h3 := h2 1 htr
  exact ⟨h1, h3.1 hpr, h3.2.1, (h3.2.2.1 2 (by omega)).1, h3.2.2.2⟩

/-! ### C3: the body fetch stops at the first empty page -/

/-- Body-loop invariant lemma: if pages `1..q` yielded text (already
stored) and page `k` (with `q < k`) is the first page with no paragraphs,
running the loop from page `q + 1` stores pages up to `k - 1`, writes the
sentinel instead when `k = 1`, and fetches exactly pages `1..k`. -/
theorem bodyLoopAux_first_empty (bodyText : Nat → String) (k : Nat)
    (hk10 : k ≤ MAX_BODY_PAGES)
    (hne : ∀ i, 1 ≤ i → i < k → bodyText i ≠ "") (hemp : bodyText k = "") :
    ∀ (m q : Nat) (st : BodyState), q + 1 ≤ k → k < q + 1 + m →
      st.pages = (List.range' 1 q).map bodyText
        ++ List.replicate (MAX_BODY_PAGES - q) "" →
      st.fetched = List.range' 1 q →
      (bodyLoopAux bodyText (List.range' (q + 1) m) st).pages
          = (if k = 1 then BODY_UNAVAILABLE :: List.replicate (MAX_BODY_PAGES - 1) ""
            else (List.range' 1 (k - 1)).map bodyText
              ++ List.replicate (MAX_BODY_PAGES - (k - 1)) "")
        ∧ (bodyLoopAux bodyText (List.range' (q + 1) m) st).fetched
            = List.range' 1 k := by
  intro m
  induction m with
  | zero => intro q st hqk hkm _ _; omega
  | succ m ih =>
    intro q st hqk hkm hpg hfet
    rw [List.range'_succ]
    simp only [bodyLoopAux, Nat.add_sub_cancel]
    by_cases hek : k = q + 1
    · rw [if_pos (by rw [← hek]; exact hemp)]
      by_cases hq0 : q = 0
      · subst hq0
        rw [if_pos rfl]
        constructor
        · rw [if_pos (by omega)]
          obtain ⟨r, hr⟩ : ∃ r, MAX_BODY_PAGES = r + 1 := ⟨MAX_BODY_PAGES - 1, by decide⟩
          rw [hpg]
          simp [hr, List.replicate_succ]
        · rw [hfet, hek]
          simp [List.range']
      · rw [if_neg (by omega)]
        constructor
        · rw [if_neg (by omega)]
          rw [hpg, hek]
          simp
        · rw [hfet, hek, List.range'_1_concat]
          simp [Nat.add_comm]
    · have hlt : q + 1 < k := by omega
      have htext : bodyText (q + 1) ≠ "" := hne (q + 1) (by omega) hlt
      rw [if_neg htext]
      have hq10 : q < MAX_BODY_PAGES := by
        simp only [MAX_BODY_PAGES] at hk10 ⊢; omega
      have hlenA : ((List.range' 1 q).map bodyText).length = q := by
        simp
      obtain ⟨r, hr⟩ : ∃ r, MAX_BODY_PAGES - q = r + 1 :=
        ⟨MAX_BODY_PAGES - q - 1, by omega⟩
      have hgd : st.pages.getD q "" = "" := by
        rw [hpg, hr]
        have := getD_append_len ((List.range' 1 q).map bodyText)
          (List.replicate (r + 1) "") ""
        rw [hlenA] at this
        rw [this]
        simp [List.replicate_succ]
      rw [if_pos (by rw [hgd]; exact fun hh => htext hh.symm)]
      have hpg2 :
          (st.pages.set q (bodyText (q + 1)))
            = (List.range' 1 (q + 1)).map bodyText
              ++ List.replicate (MAX_BODY_PAGES - (q + 1)) "" := by
        rw [hpg, hr]
        have hset := set_append_len ((List.range' 1 q).map bodyText)
          (List.replicate (r + 1) "") (bodyText (q + 1))
        rw [hlenA] at hset
        rw [hset, List.range'_1_concat]
        have hr2 : MAX_BODY_PAGES - (q + 1) = r := by omega
        rw [hr2]
        simp [List.replicate_succ, Nat.add_comm]
      have hfet2 : (st.fetched ++ [q + 1]) = List.range' 1 (q + 1) := by
        rw [hfet, List.range'_1_concat, Nat.add_comm]
      exact ih (q + 1)
        { pages := st.pages.set q (bodyText (q + 1)), changed := true
          fetched := st.fetched ++ [q + 1] }
        (by omega) (by omega) hpg2 hfet2

/-- C3.  On a freshly appended (all-blank) row, for every page bound
`n ≥ k`, the body fetch walks pages `1, 2, ...` sequentially and stops at
the first page `k` that yields no paragraphs: when `k = 1` the single
sentinel `本文取得不可` is recorded in the page-1 column and nothing else;
when `k ≥ 2` exactly the `k - 1` preceding pages are populated with their
fetched texts and the later columns stay blank — regardless of the bound
`n`; in both cases exactly pages `1..k` are requested. -/
theorem body_fetch_first_empty_page (bodyText : Nat → String) (n k : Nat)
    (hk1 : 1 ≤ k) (hk10 : k ≤ MAX_BODY_PAGES) (hkn : k ≤ n)
    (hne : ∀ i, 1 ≤ i → i < k → bodyText i ≠ "") (hemp : bodyText k = "") :
    (fetchBodyFresh bodyText n).pages
        = (if k = 1 then BODY_UNAVAILABLE :: List.replicate (MAX_BODY_PAGES - 1) ""
          else (List.range' 1 (k - 1)).map bodyText
            ++ List.replicate (MAX_BODY_PAGES - (k - 1)) "")
      ∧ (fetchBodyFresh bodyText n).fetched = List.range' 1 k := by
  have h := bodyLoopAux_first_empty bodyText k hk10 hne hemp n 0
    { pages := List.replicate MAX_BODY_PAGES "", changed := false, fetched := [] }
    (by omega) (by omega) (by simp) rfl
  simpa [fetchBodyFresh] using h

/-! ### C2: per-batch reconciliation of classifier results -/

theorem getD_mem {α : Type} (l : List α) (n : Nat) (d : α) (h : n < l.length) :
    l.getD n d ∈ l := by
  rw [List.getD_eq_getElem?_getD, List.getElem?_eq_getElem h]
  simp

/-- Every collected target records a row number in the scanned window,
pointing at a row that satisfies the target test, and is the record built
from that row. -/
theorem collectTargetsAux_mem (rows : List (List String)) :
    ∀ (idx : Nat) (t : GTarget), t ∈ collectTargetsAux rows idx →
      idx ≤ t.row_index ∧ t.row_index - idx < rows.length ∧
      isTargetRow (rows.getD (t.row_index - idx) []) = true ∧
      t = mkTarget (rows.getD (t.row_index - idx) []) t.row_index := by
  induction rows with
  | nil => intro idx t ht; simp [collectTargetsAux] at ht
  | cons row rest ih =>
    intro idx t ht
    simp only [collectTargetsAux] at ht
    by_cases hrow : isTargetRow row
    · rw [if_pos hrow] at ht
      rcases List.mem_cons.mp ht with h | h
      · subst h
        refine ⟨Nat.le_refl _, ?_, ?_, ?_⟩
        · simp [mkTarget]
        · simp [mkTarget, Nat.sub_self, hrow]
        · simp [mkTarget, Nat.sub_self]
      · obtain ⟨h1, h2, h3, h4⟩ := ih (idx + 1) t h
        obtain ⟨e, he⟩ : ∃ e, t.row_index = idx + 1 + e := ⟨t.row_index - (idx + 1), by omega⟩
        have hsub : t.row_index - idx = e + 1 := by omega
        have hsub1 : t.row_index - (idx + 1) = e := by omega
        rw [hsub1] at h2 h3 h4
        refine ⟨by omega, ?_, ?_, ?_⟩
        · simp only [List.length_cons]
          omega
        · rw [hsub]
          simpa using h3
        · rw [hsub]
          simpa using h4
    · rw [if_neg hrow] at ht
      obtain ⟨h1, h2, h3, h4⟩ := ih (idx + 1) t ht
      obtain ⟨e, he⟩ : ∃ e, t.row_index = idx + 1 + e := ⟨t.row_index - (idx + 1), by omega⟩
      have hsub : t.row_index - idx = e + 1 := by omega
      have hsub1 : t.row_index - (idx + 1) = e := by omega
      rw [hsub1] at h2 h3 h4
      refine ⟨by omega, ?_, ?_, ?_⟩
      · simp only [List.length_cons]
        omega
      · rw [hsub]
        simpa using h3
      · rw [hsub]
        simpa using h4

/-- Collected targets carry strictly increasing row numbers. -/
theorem collectTargetsAux_pairwise (rows : List (List String)) :
    ∀ idx, (collectTargetsAux rows idx).Pairwise fun a b => a.row_index < b.row_index := by
  induction rows with
  | nil => intro idx; simp [collectTargetsAux]
  | cons row rest ih =>
    intro idx
    simp only [collectTargetsAux]
    by_cases hrow : isTargetRow row
    · rw [if_pos hrow]
      refine List.Pairwise.cons ?_ (ih (idx + 1))
      intro t ht
      have := (collectTargetsAux_mem rest (idx + 1) t ht).1
      simp [mkTarget]
      omega
    · rw [if_neg hrow]
      exact ih (idx + 1)

/-- A row number is collected iff its row passes the target test. -/
theorem collectTargetsAux_mem_index (rows : List (List String)) :
    ∀ (idx j : Nat), j < rows.length →
      ((idx + j) ∈ (collectTargetsAux rows idx).map (fun t => t.row_index)
        ↔ isTargetRow (rows.getD j []) = true) := by
  induction rows with
  | nil => intro idx j hj; simp at hj
  | cons row rest ih =>
    intro idx j hj
    simp only [collectTargetsAux]
    cases j with
    | zero =>
      simp only [Nat.add_zero, List.getD_cons_zero]
      by_cases hrow : isTargetRow row
      · rw [if_pos hrow]
        simp [mkTarget, hrow]
      · rw [if_neg hrow]
        constructor
        · intro hmem
          obtain ⟨t, ht, hri⟩ := List.mem_map.mp hmem
          have := (collectTargetsAux_mem rest (idx + 1) t ht).1
          omega
        · intro h
          exact absurd h hrow
    | succ j =>
      have hj' : j < rest.length := by simpa using hj
      have hx : idx + (j + 1) = (idx + 1) + j := by omega
      by_cases hrow : isTargetRow row
      · rw [if_pos hrow]
        simp only [List.map_cons, List.mem_cons, List.getD_cons_succ]
        rw [show (mkTarget row idx).row_index = idx from rfl]
        constructor
        · intro h
          rcases h with h | h
          · omega
          · exact (ih (idx + 1) j hj').mp (hx ▸ h)
        · intro h
          exact Or.inr (hx ▸ (ih (idx + 1) j hj').mpr h)
      · rw [if_neg hrow]
        simp only [List.getD_cons_succ]
        rw [hx]
        exact ih (idx + 1) j hj'

/-- The reconcile loop never changes the table's row count. -/
theorem reconcileGroupAux_table_length (rmap : Int → Option GItem) :
    ∀ (batch : List GTarget) (k : Nat) (st : ReconcileState),
      (reconcileGroupAux rmap batch k st).table.length = st.table.length := by
  intro batch
  induction batch with
  | nil => intro k st; rfl
  | cons t rest ih =>
    intro k st
    simp only [reconcileGroupAux]
    cases rmap (Int.ofNat k) with
    | none => exact ih (k + 1) st
    | some r =>
      rw [ih (k + 1)]
      simp [updatePT]

/-- Rows at positions no batch member points at are untouched. -/
theorem reconcileGroupAux_untouched (rmap : Int → Option GItem) :
    ∀ (batch : List GTarget) (k : Nat) (st : ReconcileState) (p : Nat),
      (∀ t ∈ batch, t.row_index - 2 ≠ p) →
      (reconcileGroupAux rmap batch k st).table.getD p []
        = st.table.getD p [] := by
  intro batch
  induction batch with
  | nil => intro k st p _; rfl
  | cons t rest ih =>
    intro k st p hp
    simp only [reconcileGroupAux]
    cases rmap (Int.ofNat k) with
    | none => exact ih (k + 1) st p fun x hx => hp x (List.mem_cons_of_mem t hx)
    | some r =>
      rw [ih (k + 1) _ p fun x hx => hp x (List.mem_cons_of_mem t hx)]
      simp only [updatePT]
      exact getD_set_ne _ _ _ _ _ (hp t (List.mem_cons_self t rest))

/-- Per-target table effect of the reconcile loop: the `j`-th target's row
receives exactly the `setPT` write when its group-local key is in the
map, and stays exactly as it was when the key is absent. -/
theorem reconcileGroupAux_getD (rmap : Int → Option GItem) :
    ∀ (batch : List GTarget) (k : Nat) (st : ReconcileState),
      batch.Pairwise (fun a b => a.row_index < b.row_index) →
      (∀ t ∈ batch, 2 ≤ t.row_index ∧ t.row_index - 2 < st.table.length) →
      ∀ j, j < batch.length →
        ((∀ r, rmap (Int.ofNat (k + j)) = some r →
          (reconcileGroupAux rmap batch k st).table.getD
              ((batch.getD j default).row_index - 2) []
            = setPT (st.table.getD ((batch.getD j default).row_index - 2) []) r) ∧
        (rmap (Int.ofNat (k + j)) = none →
          (reconcileGroupAux rmap batch k st).table.getD
              ((batch.getD j default).row_index - 2) []
            = st.table.getD ((batch.getD j default).row_index - 2) [])) := by
  intro batch
  induction batch with
  | nil => intro k st _ _ j hj; simp at hj
  | cons t rest ih =>
    intro k st hpw hbd j hj
    have hpw' := List.Pairwise.of_cons hpw
    have hhead : ∀ x ∈ rest, t.row_index < x.row_index :=
      fun x hx => List.rel_of_pairwise_cons hpw hx
    have huntouched : ∀ x ∈ rest, x.row_index - 2 ≠ t.row_index - 2 := by
      intro x hx
      have h1 := hhead x hx
      have h2 := (hbd t (List.mem_cons_self t rest)).1
      omega
    cases j with
    | zero =>
      simp only [Nat.add_zero, List.getD_cons_zero, reconcileGroupAux]
      cases hmk : rmap (Int.ofNat k) with
      | none =>
        refine ⟨fun r hr => absurd hr (by simp), fun _ => ?_⟩
        exact reconcileGroupAux_untouched rmap rest (k + 1) st _ huntouched
      | some r0 =>
        refine ⟨fun r hr => ?_, fun hr => absurd hr (by simp)⟩
        have hr0 : r0 = r := Option.some.inj hr
        subst hr0
        rw [reconcileGroupAux_untouched rmap rest (k + 1) _ _ huntouched]
        simp only [updatePT]
        exact getD_set_self _ _ _ _ (by
          have := (hbd t (List.mem_cons_self t rest)).2
          exact this)
    | succ j =>
      have hj' : j < rest.length := by simpa using hj
      have hkey : Int.ofNat (k + (j + 1)) = Int.ofNat ((k + 1) + j) := by
        congr 1
        omega
      simp only [List.getD_cons_succ, reconcileGroupAux]
      cases hmk : rmap (Int.ofNat k) with
      | none =>
        have := ih (k + 1) st hpw' (fun x hx => hbd x (List.mem_cons_of_mem t hx)) j hj'
        rw [hkey]
        exact this
      | some r0 =>
        have hst2 : ∀ x ∈ rest, 2 ≤ x.row_index ∧
            x.row_index - 2 < (updatePT st.table t.row_index r0).length := by
          intro x hx
          have := hbd x (List.mem_cons_of_mem t hx)
          simpa [updatePT] using this
        have := ih (k + 1)
          { table := updatePT st.table t.row_index r0, writes := st.writes ++ [(t.row_index, r0)] }
          hpw' hst2 j hj'
        rw [hkey]
        have hsame : (updatePT st.table t.row_index r0).getD
            ((rest.getD j default).row_index - 2) []
            = st.table.getD ((rest.getD j default).row_index - 2) [] := by
          simp only [updatePT]
          refine getD_set_ne _ _ _ _ _ ?_
          have hmem := getD_mem rest j default hj'
          exact (huntouched _ hmem).symm
        rw [← hsame]
        exact this

/-- Write-log membership of the reconcile loop: an entry appears iff it
was already logged or some batch position's group-local key maps to it. -/
theorem reconcileGroupAux_writes_mem (rmap : Int → Option GItem) :
    ∀ (batch : List GTarget) (k : Nat) (st : ReconcileState) (rowi : Nat) (r : GItem),
      ((rowi, r) ∈ (reconcileGroupAux rmap batch k st).writes ↔
        (rowi, r) ∈ st.writes ∨ ∃ j, j < batch.length ∧
          (batch.getD j default).row_index = rowi ∧
          rmap (Int.ofNat (k + j)) = some r) := by
  intro batch
  induction batch with
  | nil =>
    intro k st rowi r
    simp [reconcileGroupAux]
  | cons t rest ih =>
    intro k st rowi r
    simp only [reconcileGroupAux]
    cases hmk : rmap (Int.ofNat k) with
    | none =>
      rw [ih (k + 1)]
      constructor
      · intro h
        rcases h with h | ⟨j, hj, hri, hr⟩
        · exact Or.inl h
        · refine Or.inr ⟨j + 1, by simpa using hj, by simpa using hri, ?_⟩
          rw [show Int.ofNat (k + (j + 1)) = Int.ofNat (k + 1 + j) from by congr 1; omega]
          exact hr
      · intro h
        rcases h with h | ⟨j, hj, hri, hr⟩
        · exact Or.inl h
        · cases j with
          | zero =>
            rw [Nat.add_zero] at hr
            rw [hmk] at hr
            exact absurd hr (by simp)
          | succ j =>
            refine Or.inr ⟨j, by simpa using hj, by simpa using hri, ?_⟩
            rw [show Int.ofNat (k + 1 + j) = Int.ofNat (k + (j + 1)) from by congr 1; omega]
            exact hr
    | some r0 =>
      rw [ih (k + 1)]
      constructor
      · intro h
        rcases h with h | ⟨j, hj, hri, hr⟩
        · simp only [List.mem_append, List.mem_singleton] at h
          rcases h with h | h
          · exact Or.inl h
          · rw [Prod.ext_iff] at h
            obtain ⟨h1, h2⟩ := h
            simp only at h1 h2
            refine Or.inr ⟨0, by simp, ?_, ?_⟩
            · simp only [List.getD_cons_zero]
              exact h1.symm
            · rw [Nat.add_zero, hmk, h2]
        · refine Or.inr ⟨j + 1, by simpa using hj, by simpa using hri, ?_⟩
          rw [show Int.ofNat (k + (j + 1)) = Int.ofNat (k + 1 + j) from by congr 1; omega]
          exact hr
      · intro h
        rcases h with h | ⟨j, hj, hri, hr⟩
        · exact Or.inl (by simp [h])
        · cases j with
          | zero =>
            rw [Nat.add_zero, hmk] at hr
            have : r0 = r := by simpa using hr
            subst this
            refine Or.inl ?_
            simp only [List.getD_cons_zero] at hri
            simp [hri]
          | succ j =>
            refine Or.inr ⟨j, by simpa using hj, by simpa using hri, ?_⟩
            rw [show Int.ofNat (k + 1 + j) = Int.ofNat (k + (j + 1)) from by congr 1; omega]
            exact hr

/-- C2.  For every classification batch (the `b`-th fixed-size chunk of
the collected targets) and every parsed response: exactly those targets
whose group-local index is a key of `result_by_index` receive the P-T
write — their row's five classification columns are replaced by the
response item's fields and the write is logged — while every target whose
index is absent is left completely untouched this run and still satisfies
the target test afterwards, so the next run's collection picks it up
again. -/
theorem batch_reconciliation (table : List (List String)) (results : List GItem)
    (b : Nat) (batch : List GTarget)
    (hb : batch = ((collectTargets table).drop (GEMINI_MAX_BATCH_SIZE * b)).take
        GEMINI_MAX_BATCH_SIZE) :
    ∀ j, j < batch.length →
      (∀ r, buildResultByIndex results (Int.ofNat j) = some r →
        (reconcileGroup table batch results).table.getD
            ((batch.getD j default).row_index - 2) []
          = setPT (table.getD ((batch.getD j default).row_index - 2) []) r ∧
        ((batch.getD j default).row_index, r) ∈ (reconcileGroup table batch results).writes) ∧
      (buildResultByIndex results (Int.ofNat j) = none →
        (reconcileGroup table batch results).table.getD
            ((batch.getD j default).row_index - 2) []
          = table.getD ((batch.getD j default).row_index - 2) [] ∧
        (∀ r, ((batch.getD j default).row_index, r)
          ∉ (reconcileGroup table batch results).writes) ∧
        (batch.getD j default).row_index ∈
          (collectTargets (reconcileGroup table batch results).table).map
            (fun t => t.row_index)) := by
  have hsub : batch.Sublist (collectTargets table) := by
    rw [hb]
    exact (List.take_sublist _ _).trans (List.drop_sublist _ _)
  have hmemC : ∀ t ∈ batch, t ∈ collectTargets table := fun t ht => hsub.subset ht
  have hchar : ∀ t ∈ batch, 2 ≤ t.row_index ∧ t.row_index - 2 < table.length ∧
      isTargetRow (table.getD (t.row_index - 2) []) = true := by
    intro t ht
    have := collectTargetsAux_mem table 2 t (hmemC t ht)
    exact ⟨this.1, this.2.1, this.2.2.1⟩
  have hpw : batch.Pairwise (fun a b => a.row_index < b.row_index) :=
    (collectTargetsAux_pairwise table 2).sublist hsub
  intro j hj
  have hgetDj : batch.getD j default ∈ batch := getD_mem batch j default hj
  have hposj := hchar _ hgetDj
  have hinj : ∀ j', j' < batch.length →
      (batch.getD j' default).row_index = (batch.getD j default).row_index → j' = j := by
    intro j' hj' heq
    by_contra hne
    rcases Nat.lt_or_ge j' j with hlt | hge
    · have := List.pairwise_iff_getElem.mp hpw j' j hj' hj hlt
      rw [List.getD_eq_getElem batch default hj', List.getD_eq_getElem batch default hj]
        at heq
      omega
    · have hgt : j < j' := by omega
      have := List.pairwise_iff_getElem.mp hpw j j' hj hj' hgt
      rw [List.getD_eq_getElem batch default hj', List.getD_eq_getElem batch default hj]
        at heq
      omega
  have hmain := reconcileGroupAux_getD (buildResultByIndex results) batch 0
    { table := table, writes := [] } hpw
    (fun t ht => ⟨(hchar t ht).1, (hchar t ht).2.1⟩) j hj
  rw [Nat.zero_add] at hmain
  have hwmem := fun (r : GItem) => reconcileGroupAux_writes_mem (buildResultByIndex results)
    batch 0 { table := table, writes := [] } (batch.getD j default).row_index r
  constructor
  · intro r hr
    refine ⟨hmain.1 r hr, ?_⟩
    rw [reconcileGroup]
    refine (hwmem r).mpr (Or.inr ⟨j, hj, rfl, ?_⟩)
    rw [Nat.zero_add]
    exact hr
  · intro hr
    have huntch : (reconcileGroup table batch results).table.getD
        ((batch.getD j default).row_index - 2) []
        = table.getD ((batch.getD j default).row_index - 2) [] := hmain.2 hr
    refine ⟨huntch, ?_, ?_⟩
    · intro r hmem
      rw [reconcileGroup] at hmem
      rcases (hwmem r).mp hmem with h | ⟨j', hj', hri', hr'⟩
      · simp at h
      · rw [Nat.zero_add] at hr'
        have := hinj j' hj' hri'
        subst this
        rw [hr] at hr'
        exact absurd hr' (by simp)
    · have hlen : (reconcileGroup table batch results).table.length = table.length := by
        rw [reconcileGroup]
        exact reconcileGroupAux_table_length _ _ _ _
      have hji : (batch.getD j default).row_index - 2
          < (reconcileGroup table batch results).table.length := by
        rw [hlen]
        exact hposj.2.1
      have hidx := collectTargetsAux_mem_index
        (reconcileGroup table batch results).table 2
        ((batch.getD j default).row_index - 2) hji
      rw [show 2 + ((batch.getD j default).row_index - 2)
          = (batch.getD j default).row_index from by
        have := hposj.1
        omega] at hidx
      refine hidx.mpr ?_
      rw [huntch]
      exact hposj.2.2

/-- Witness for C2: a two-target batch reconciled against a response that
carries only index 0: row 2 gets the P-T write and is logged, row 3 is
untouched and is collected as a target again. -/
theorem batch_reconciliation_witness :
    (reconcileGroup [targetRowX, targetRowY]
        (((collectTargets [targetRowX, targetRowY]).drop (GEMINI_MAX_BATCH_SIZE * 0)).take
          GEMINI_MAX_BATCH_SIZE) [gItemGood]).table.getD 0 []
      = setPT ([targetRowX, targetRowY].getD 0 []) gItemGood ∧
    (2, gItemGood) ∈ (reconcileGroup [targetRowX, targetRowY]
        (((collectTargets [targetRowX, targetRowY]).drop (GEMINI_MAX_BATCH_SIZE * 0)).take
          GEMINI_MAX_BATCH_SIZE) [gItemGood]).writes ∧
    (reconcileGroup [targetRowX, targetRowY]
        (((collectTargets [targetRowX, targetRowY]).drop (GEMINI_MAX_BATCH_SIZE * 0)).take
          GEMINI_MAX_BATCH_SIZE) [gItemGood]).table.getD 1 []
      = targetRowY ∧
    3 ∈ (collectTargets (reconcileGroup [targetRowX, targetRowY]
        (((collectTargets [targetRowX, targetRowY]).drop (GEMINI_MAX_BATCH_SIZE * 0)).take
          GEMINI_MAX_BATCH_SIZE) [gItemGood]).table).map (fun t => t.row_index) := by
  have h := batch_reconciliation [targetRowX, targetRowY] [gItemGood] 0
    (((collectTargets [targetRowX, targetRowY]).drop (GEMINI_MAX_BATCH_SIZE * 0)).take
      GEMINI_MAX_BATCH_SIZE) rfl
  have h0 := (h 0 (by decide)).1 gItemGood (by decide)
  have h1 := (h 1 (by decide)).2 (by decide)
  have e0 : ((((collectTargets [targetRowX, targetRowY]).drop (GEMINI_MAX_BATCH_SIZE * 0)).take
      GEMINI_MAX_BATCH_SIZE).getD 0 default).row_index = 2 := by decide
  have e1 : ((((collectTargets [targetRowX, targetRowY]).drop (GEMINI_MAX_BATCH_SIZE * 0)).take
      GEMINI_MAX_BATCH_SIZE).getD 1 default).row_index = 3 := by decide
  rw [e0] at h0
  rw [e1] at h1
  refine ⟨h0.1, h0.2, ?_, h1.2.2⟩
  rw [h1.1]
  rfl

/-! ### C8: quota exhaustion stops the classification phase -/

/-- The phase loop only ever appends to the dispatch log, and every
appended batch number lies in the processed window. -/
theorem analyzePhaseLoop_dispatched_bounds (oracle : Nat → Nat → CallOutcome) :
    ∀ (batches : List (List GTarget)) (b0 : Nat) (st : PhaseState),
      ∃ t, (analyzePhaseLoop oracle batches b0 st).dispatched = st.dispatched ++ t ∧
        ∀ x ∈ t, b0 ≤ x ∧ x < b0 + batches.length := by
  intro batches
  induction batches with
  | nil =>
    intro b0 st
    exact ⟨[], by simp [analyzePhaseLoop], by intro x hx; simp at hx⟩
  | cons batch rest ih =>
    intro b0 st
    simp only [analyzePhaseLoop]
    cases hcall : (analyze_with_gemini_batch (oracle b0)).1 with
    | raised e =>
      refine ⟨[b0], rfl, ?_⟩
      intro x hx
      simp at hx
      simp [hx]
    | ok results =>
      obtain ⟨t, ht, hbd⟩ := ih (b0 + 1)
        { table := (reconcileGroupAux (buildResultByIndex results) batch 0
            { table := st.table, writes := st.writes }).table
          writes := (reconcileGroupAux (buildResultByIndex results) batch 0
            { table := st.table, writes := st.writes }).writes
          dispatched := st.dispatched ++ [b0] }
      refine ⟨b0 :: t, ?_, ?_⟩
      · rw [ht]
        simp
      · intro x hx
        rcases List.mem_cons.mp hx with h | h
        · subst h
          constructor
          · exact Nat.le_refl _
          · simp only [List.length_cons]
            omega
        · have := hbd x h
          constructor
          · omega
          · simp only [List.length_cons]
            omega

/-- When the first `b` dispatches succeed and dispatch `b` reports quota
exhaustion, the phase run equals the run over the first `b` batches alone,
except that batch `b` itself was dispatched. -/
theorem analyzePhaseLoop_quota_stops (oracle : Nat → Nat → CallOutcome) :
    ∀ (b : Nat) (batches : List (List GTarget)) (b0 : Nat) (st : PhaseState),
      b < batches.length →
      (∀ k, k < b → ∃ results,
        (analyze_with_gemini_batch (oracle (b0 + k))).1 = .ok results) →
      (analyze_with_gemini_batch (oracle (b0 + b))).1 = .raised "ResourceExhausted" →
      analyzePhaseLoop oracle batches b0 st
        = { analyzePhaseLoop oracle (batches.take b) b0 st with
            dispatched :=
              (analyzePhaseLoop oracle (batches.take b) b0 st).dispatched ++ [b0 + b] } := by
  intro b
  induction b with
  | zero =>
    intro batches b0 st hlen _ hq
    cases batches with
    | nil => simp at hlen
    | cons batch rest =>
      simp only [Nat.add_zero] at hq ⊢
      simp only [analyzePhaseLoop, List.take_zero, hq]
  | succ b ih =>
    intro batches b0 st hlen hok hq
    cases batches with
    | nil => simp at hlen
    | cons batch rest =>
      obtain ⟨results, hres⟩ := hok 0 (by omega)
      rw [Nat.add_zero] at hres
      rw [List.take_succ_cons]
      simp only [analyzePhaseLoop, hres]
      rw [show b0 + (b + 1) = b0 + 1 + b from by omega]
      refine ih rest (b0 + 1) _ (by simpa using hlen) ?_ ?_
      · intro k hk
        obtain ⟨res, hres2⟩ := hok (k + 1) (by omega)
        exact ⟨res, by rwa [show b0 + 1 + k = b0 + (k + 1) from by omega]⟩
      · rwa [show b0 + 1 + b = b0 + (b + 1) from by omega]

/-- C8.  A quota-exhaustion failure from the classification backend is
never retried — on the attempt at which `ResourceExhausted` is reported
`analyze_with_gemini_batch` raises at once, making no further attempt —
and it terminates the classification phase at once: the run's final table
and write log are exactly those after the earlier (successful) batches, so
all their committed writes are preserved, batch `b` itself is the last
dispatch, and no batch after `b` is ever dispatched. -/
theorem quota_exhaustion_stops_run :
    (∀ (oracle : Nat → CallOutcome) (j : Nat), j < GEMINI_MAX_RETRIES →
      (∀ i, i < j → oracle i = .transient) → oracle j = .quota →
      analyze_with_gemini_batch oracle
        = (.raised "ResourceExhausted", List.range (j + 1))) ∧
    (∀ (oracle : Nat → Nat → CallOutcome) (tableData : List (List String)) (b : Nat),
      b < (batchesOf (collectTargets tableData)).length →
      (∀ k, k < b → ∃ results,
        (analyze_with_gemini_batch (oracle k)).1 = .ok results) →
      (analyze_with_gemini_batch (oracle b)).1 = .raised "ResourceExhausted" →
      (analyze_and_update_sheet oracle tableData).table
          = (analyzePhaseLoop oracle ((batchesOf (collectTargets tableData)).take b) 0
              { table := tableData, writes := [], dispatched := [] }).table ∧
      (analyze_and_update_sheet oracle tableData).writes
          = (analyzePhaseLoop oracle ((batchesOf (collectTargets tableData)).take b) 0
              { table := tableData, writes := [], dispatched := [] }).writes ∧
      (analyze_and_update_sheet oracle tableData).dispatched
          = (analyzePhaseLoop oracle ((batchesOf (collectTargets tableData)).take b) 0
              { table := tableData, writes := [], dispatched := [] }).dispatched ++ [b] ∧
      ∀ x ∈ (analyze_and_update_sheet oracle tableData).dispatched, x ≤ b) := by
  constructor
  · intro oracle j hj hpre hq
    have hj3 : j < 3 := by simpa [GEMINI_MAX_RETRIES] using hj
    interval_cases j
    · rw [analyze_with_gemini_batch]
      have h0 : List.range GEMINI_MAX_RETRIES = [0, 1, 2] := rfl
      rw [h0]
      simp only [geminiAttemptLoop, hq]
      decide
    · rw [analyze_with_gemini_batch]
      have h0 : List.range GEMINI_MAX_RETRIES = [0, 1, 2] := rfl
      rw [h0]
      simp only [geminiAttemptLoop, hq, hpre 0 (by omega)]
      decide
    · rw [analyze_with_gemini_batch]
      have h0 : List.range GEMINI_MAX_RETRIES = [0, 1, 2] := rfl
      rw [h0]
      simp only [geminiAttemptLoop, hq, hpre 0 (by omega), hpre 1 (by omega)]
      decide
  · intro oracle tableData b hlen hok hq
    have h := analyzePhaseLoop_quota_stops oracle b
      (batchesOf (collectTargets tableData)) 0
      { table := tableData, writes := [], dispatched := [] } hlen
      (fun k hk => by simpa using hok k hk) (by simpa using hq)
    rw [analyze_and_update_sheet, h]
    refine ⟨rfl, rfl, by simp, ?_⟩
    intro x hx
    obtain ⟨t, ht, hbd⟩ := analyzePhaseLoop_dispatched_bounds oracle
      ((batchesOf (collectTargets tableData)).take b) 0
      { table := tableData, writes := [], dispatched := [] }
    simp only at hx
    rw [ht] at hx
    simp only [List.nil_append] at hx
    rcases List.mem_append.mp hx with hmem | hmem
    · have := hbd x hmem
      have hlt : ((batchesOf (collectTargets tableData)).take b).length ≤ b :=
        (List.length_take _ _).le.trans (Nat.min_le_left _ _)
      omega
    · simp at hmem
      omega

/-- Witness for C8: with a backend that reports quota exhaustion on its
very first call, the dispatch is not retried (one attempt only), nothing
is written, and only batch 0 is ever dispatched. -/
theorem quota_exhaustion_stops_run_witness :
    analyze_with_gemini_batch (oracleQuota 0)
      = (.raised "ResourceExhausted", [0]) ∧
    (analyze_and_update_sheet oracleQuota [targetRowX]).table = [targetRowX] ∧
    (analyze_and_update_sheet oracleQuota [targetRowX]).writes = [] ∧
    (analyze_and_update_sheet oracleQuota [targetRowX]).dispatched = [0] := by
  obtain ⟨hA, hB⟩ := quota_exhaustion_stops_run
  have h1 := hA (oracleQuota 0) 0 (by decide) (fun i hi => absurd hi (by omega)) rfl
  have h2 := hB oracleQuota [targetRowX] 0 (by decide)
    (fun k hk => absurd hk (by omega)) (by decide)
  refine ⟨by rw [h1]; decide, ?_, ?_, ?_⟩
  · rw [h2.1]
    rfl
  · rw [h2.2.1]
    rfl
  · rw [h2.2.2.1]
    rfl

/-! ### C10: malformed classifier-response indices default to 0 -/

/-- Dict-build characterization with a generalized accumulator: after
processing `results`, the entry at key `i` is the last item whose
converted index is `i`, or the accumulator's entry when there is none. -/
theorem buildResultByIndex_foldl (results : List GItem) (m : Int → Option GItem) (i : Int) :
    (results.foldl (fun m r => fun k => if k = idxInt r then some r else m k) m) i
      = ((results.filter fun r => idxInt r == i).getLast?).elim (m i) some := by
  induction results generalizing m with
  | nil => rfl
  | cons r rs ih =>
    rw [List.foldl_cons, List.filter_cons]
    by_cases hp : idxInt r = i
    · have hpb : (idxInt r == i) = true := by simp [hp]
      rw [hpb]
      simp only [if_true]
      rw [ih, List.getLast?_cons]
      cases hrest : (rs.filter fun r => idxInt r == i).getLast? with
      | none => simp [hrest, hp]
      | some x => simp [hrest]
    · have hpb : (idxInt r == i) = false := by simp [hp]
      rw [hpb]
      simp only [Bool.false_eq_true, if_false]
      rw [ih]
      have : i ≠ idxInt r := fun hh => hp hh.symm
      simp [this]

/-- C10.  A response object lacking an `index` key, or carrying an index
value that does not convert to an int, is assigned key 0 in
`result_by_index`; among items with the same converted index the last one
in response order wins; concretely, a later malformed item overwrites the
entry destined for the batch's first target. -/
theorem malformed_index_defaults_to_zero :
    (∀ d : RawItem, d.index = none → idxInt (parseItem d) = 0) ∧
    (∀ (d : RawItem) (v : JVal), d.index = some v → pyIntOf v = none →
      idxInt (parseItem d) = 0) ∧
    (∀ (results : List GItem) (i : Int),
      buildResultByIndex results i
        = (results.filter fun r => idxInt r == i).getLast?) ∧
    (buildResultByIndex [gItemGood, parseItem rawNullIndex] 0
        = some (parseItem rawNullIndex) ∧
      parseItem rawNullIndex ≠ gItemGood) := by
  refine ⟨?_, ?_, ?_, ?_, ?_⟩
  · intro d h
    simp [idxInt, parseItem, h, pyIntOf]
  · intro d v h hv
    simp [idxInt, parseItem, h, hv]
  · intro results i
    rw [buildResultByIndex, buildResultByIndex_foldl]
    cases (results.filter fun r => idxInt r == i).getLast? <;> rfl
  · decide
  · decide

/-- Witness for C10 at concrete malformed items: a missing `index` key and
a non-convertible string index both land on key 0. -/
theorem malformed_index_defaults_to_zero_witness :
    idxInt (parseItem rawMissingIndex) = 0 ∧
    idxInt (parseItem rawStrIndex) = 0 ∧
    buildResultByIndex [] 7 = (List.filter (fun r => idxInt r == 7) []).getLast? := by
  have h := malformed_index_defaults_to_zero
  exact ⟨h.1 _ rfl, h.2.1 _ (.jstr "seven") rfl (by decide), h.2.2.1 [] 7⟩

/-! ### C6 and C7: the date normalizer raises on every string input -/

/-- C6 (code bug).  `parse_post_date("12/31(日)23:00配信", 2024-01-05 JST)`
does not return 2023-12-31T23:00+09:00: the malformed `\u670` escape in
the weekday pattern of line 132 makes the `re.sub` call raise `re.error`
before any format is tried, for this and every other string input. -/
theorem parse_post_date_year_rollback_input_raises :
    parse_post_date (.vstr "12/31(日)23:00配信") 0 = .raised WEEKDAY_REGEX_ERROR :=
  rfl

/-- C7 (code bug).  `parse_post_date` does return `None` without raising
for `None` and numeric inputs, but for the string "not a date" (and every
other string) it raises `re.error` from the malformed weekday pattern
instead of returning explicit absence. -/
theorem parse_post_date_not_a_date_raises :
    parse_post_date (.vstr "not a date") 0 = .raised WEEKDAY_REGEX_ERROR ∧
    parse_post_date .vnone 0 = .ok none ∧
    parse_post_date (.vnum 5) 0 = .ok none ∧
    parse_post_date .vother 0 = .ok none := by
  exact ⟨rfl, rfl, rfl, rfl⟩

/-! ### C5: discovered-article merging -/

/-- The URL-key set splits over appended table segments. -/
theorem existing_urls_append (d1 d2 : List (List String)) :
    existing_urls (d1 ++ d2) = existing_urls d1 ++ existing_urls d2 :=
  List.filterMap_append _ _ _

/-- The key a freshly appended article row contributes when its URL is
whitespace-clean and starts with "http". -/
theorem existing_urls_cons_row (a : DiscArticle) (t : List (List String))
    (h1 : to_str_safe a.url = a.url) (h2 : startswith a.url "http" = true) :
    existing_urls (rowOfArticle a :: t) = a.url :: existing_urls t := by
  simp [existing_urls, rowOfArticle, List.filterMap_cons, h1, h2]

/-- The keys contributed by one merge's appended rows: exactly the
discovered URLs not already present, in discovery order. -/
theorem existing_urls_new_rows (d : List (List String)) (arts : List DiscArticle)
    (h1 : ∀ a ∈ arts, to_str_safe a.url = a.url)
    (h2 : ∀ a ∈ arts, startswith a.url "http" = true) :
    existing_urls (write_news_list_new_rows d arts)
      = (arts.map DiscArticle.url).filter fun u => !(existing_urls d).contains u := by
  induction arts with
  | nil => rfl
  | cons a as ih =>
    have ha1 := h1 a (List.mem_cons_self a as)
    have ha2 := h2 a (List.mem_cons_self a as)
    have ih' := ih (fun x hx => h1 x (List.mem_cons_of_mem a hx))
      (fun x hx => h2 x (List.mem_cons_of_mem a hx))
    simp only [write_news_list_new_rows, List.map_cons, List.filter_cons] at ih' ⊢
    by_cases hc : (existing_urls d).contains a.url
    · simp only [hc, Bool.not_true, if_false]
      exact ih'
    · simp only [hc, Bool.not_false, if_true, List.map_cons]
      rw [existing_urls_cons_row a _ ha1 ha2, ih']

/-- C5, amended.  For discovered articles whose URLs are whitespace-clean
and start with "http" (as every URL produced by `extract_article_urls`
is), and pairwise distinct: the merge appends exactly the discovered
articles whose URL is not yet a key of the table, in discovery order, with
all content columns blank; it is idempotent (a second run with the same
discovered set appends nothing); and it preserves uniqueness of the URL
keys.  Without the "http"/whitespace-clean proviso the idempotence claim
is false — see the counterexample. -/
theorem merge_discovered_articles (d : List (List String)) (arts : List DiscArticle)
    (h1 : ∀ a ∈ arts, to_str_safe a.url = a.url)
    (h2 : ∀ a ∈ arts, startswith a.url "http" = true)
    (h3 : (arts.map DiscArticle.url).Nodup) :
    (write_news_list_new_rows d arts).map (fun r => r.getD 0 "")
        = (arts.map DiscArticle.url).filter (fun u => !(existing_urls d).contains u) ∧
    (∀ r ∈ write_news_list_new_rows d arts, r.drop 4 = List.replicate 16 "") ∧
    write_news_list_new_rows (write_news_list_merged d arts) arts = [] ∧
    ((existing_urls d).Nodup → (existing_urls (write_news_list_merged d arts)).Nodup) := by
  refine ⟨?_, ?_, ?_, ?_⟩
  · rw [write_news_list_new_rows, List.map_map, List.filter_map]
    rfl
  · intro r hr
    obtain ⟨a, _, rfl⟩ := List.mem_map.mp hr
    rfl
  · rw [write_news_list_new_rows, List.map_eq_nil_iff]
    apply List.filter_eq_nil_iff.mpr
    intro a ha
    simp only [Bool.not_eq_true', Bool.not_eq_false]
    rw [write_news_list_merged, existing_urls_append, existing_urls_new_rows d arts h1 h2]
    apply List.elem_iff.mpr
    by_cases hc : (existing_urls d).contains a.url
    · exact List.mem_append_left _ (List.elem_iff.mp hc)
    · refine List.mem_append_right _ (List.mem_filter.mpr ⟨List.mem_map_of_mem _ ha, ?_⟩)
      rw [Bool.not_eq_true' ]
      exact Bool.eq_false_iff.mpr fun hcc => hc hcc
  · intro hnd
    rw [write_news_list_merged, existing_urls_append, existing_urls_new_rows d arts h1 h2]
    refine List.Nodup.append hnd (List.Nodup.filter _ h3) ?_
    intro u hud hunew
    have hp := (List.mem_filter.mp hunew).2
    have hcon : (existing_urls d).contains u = true := List.elem_iff.mpr hud
    rw [hcon] at hp
    simp at hp

/-- C5 counterexample to the unrestricted idempotence claim: a discovered
entry whose URL is "x" (no "http" stem) is appended on the first run, but
its row is invisible to the `existing_urls` key set — which only collects
cells starting with "http" — so a second run with the same discovered set
appends it again. -/
theorem merge_idempotence_counterexample :
    write_news_list_new_rows (write_news_list_merged [] [artX]) [artX] ≠ [] := by
  decide

/-- Witness for the amended C5 theorem at a concrete discovered set with a
well-formed article URL: the row is appended once with its URL as key and
blank content, the second run appends nothing, and the keys stay
duplicate-free. -/
theorem merge_discovered_articles_witness :
    (write_news_list_new_rows [] [artA]).map (fun r => r.getD 0 "")
        = ["https://news.yahoo.co.jp/articles/a"] ∧
    write_news_list_new_rows (write_news_list_merged [] [artA]) [artA] = [] ∧
    (existing_urls (write_news_list_merged [] [artA])).Nodup := by
  have h := merge_discovered_articles [] [artA] (by decide) (by decide) (by decide)
  refine ⟨?_, h.2.2.1, h.2.2.2 (by decide)⟩
  rw [h.1]
  decide

/-! ### C4 and C9: the body re-fetch gate -/

/-- The body loop only ever appends to the `fetched` log. -/
theorem bodyLoopAux_fetched_extend (bodyText : Nat → String) :
    ∀ (ps : List Nat) (st : BodyState),
      ∃ t, (bodyLoopAux bodyText ps st).fetched = st.fetched ++ t := by
  intro ps
  induction ps with
  | nil => intro st; exact ⟨[], by simp [bodyLoopAux]⟩
  | cons p rest ih =>
    intro st
    simp only [bodyLoopAux]
    split_ifs with h1 h2 h3
    · exact ⟨[p], rfl⟩
    · exact ⟨[p], rfl⟩
    · obtain ⟨t, ht⟩ := ih _
      exact ⟨p :: t, by rw [ht]; simp⟩
    · obtain ⟨t, ht⟩ := ih _
      exact ⟨p :: t, by rw [ht]; simp⟩

/-- The first page of the walked list is fetched first. -/
theorem bodyLoopAux_fetched_cons (bodyText : Nat → String) (p : Nat) (ps : List Nat)
    (st : BodyState) :
    ∃ t, (bodyLoopAux bodyText (p :: ps) st).fetched = st.fetched ++ p :: t := by
  simp only [bodyLoopAux]
  split_ifs with h1 h2 h3
  · exact ⟨[], rfl⟩
  · exact ⟨[], rfl⟩
  · obtain ⟨t, ht⟩ := bodyLoopAux_fetched_extend bodyText ps _
    exact ⟨t, by rw [ht]; simp⟩
  · obtain ⟨t, ht⟩ := bodyLoopAux_fetched_extend bodyText ps _
    exact ⟨t, by rw [ht]; simp⟩

/-- The body-page-1 cell as `fetch_details_and_update` reads it: cell 0 of
`row[4:14]` on the padded row. -/
theorem processRow_page1_cell (row : List String) :
    (((padRow row).drop 4).take MAX_BODY_PAGES).getD 0 "" = (padRow row).getD 4 "" := by
  rw [getD_take_lt _ _ _ _ (by norm_num [MAX_BODY_PAGES]), getD_drop_add]

/-- Shared helper: on an article row whose trimmed body-page-1 cell is
non-empty, the iteration issues no body fetch and no body write, and still
issues the comment-count write and the Comments-sheet row write with the
freshly fetched comment data. -/
theorem processRow_skip_body (bodyText : Nat → String) (commentPages : Nat → List String)
    (row : List String)
    (hurl : startswith (to_str_safe ((padRow row).getD 0 "")) ARTICLE_URL_STEM = true)
    (hne : to_str_safe ((padRow row).getD 4 "") ≠ "") :
    (processRow bodyText commentPages row).bodyWrite = none ∧
    (processRow bodyText commentPages row).bodyFetched = [] ∧
    (processRow bodyText commentPages row).commentCountWrite
      = some (toString (fetchComments commentPages).all_comments.length) ∧
    (processRow bodyText commentPages row).commentsRowWrite
      = some ([to_str_safe ((padRow row).getD 0 ""), to_str_safe ((padRow row).getD 1 ""),
          to_str_safe ((padRow row).getD 2 ""), to_str_safe ((padRow row).getD 3 ""),
          toString (fetchComments commentPages).all_comments.length]
          ++ (fetchComments commentPages).page_strings) := by
  simp only [processRow, hurl, Bool.not_true, Bool.false_eq_true, if_false,
    processRow_page1_cell]
  simp only [List.getD_eq_getElem?_getD] at hne
  simp [hne]

/-- Shared helper: on an article row whose trimmed body-page-1 cell is
empty, the iteration starts a body fetch with page 1. -/
theorem processRow_fetch_starts (bodyText : Nat → String) (commentPages : Nat → List String)
    (row : List String)
    (hurl : startswith (to_str_safe ((padRow row).getD 0 "")) ARTICLE_URL_STEM = true)
    (hemp : to_str_safe ((padRow row).getD 4 "") = "") :
    (processRow bodyText commentPages row).bodyFetched.head? = some 1 := by
  simp only [processRow, hurl, Bool.not_true, Bool.false_eq_true, if_false,
    processRow_page1_cell]
  rw [if_pos hemp]
  have hr : List.range' 1 MAX_BODY_PAGES = 1 :: List.range' 2 9 := rfl
  rw [fetchBody, hr]
  obtain ⟨t, ht⟩ := bodyLoopAux_fetched_cons bodyText 1 (List.range' 2 9)
    { pages := ((padRow row).drop 4).take MAX_BODY_PAGES, changed := false, fetched := [] }
  rw [ht]
  rfl

/-- C4.  For every article row whose body-page-1 column already holds
non-empty text other than the `本文取得不可` sentinel, the iteration never
re-fetches the body (no page is requested) and issues no write to the body
columns E-N, while the comment-count cell and the Comments-sheet row are
still written with the freshly fetched comment data. -/
theorem row_with_body_not_refetched (bodyText : Nat → String)
    (commentPages : Nat → List String) (row : List String)
    (hurl : startswith (to_str_safe ((padRow row).getD 0 "")) ARTICLE_URL_STEM = true)
    (hne : to_str_safe ((padRow row).getD 4 "") ≠ "")
    (_hsent : (padRow row).getD 4 "" ≠ BODY_UNAVAILABLE) :
    (processRow bodyText commentPages row).bodyWrite = none ∧
    (processRow bodyText commentPages row).bodyFetched = [] ∧
    (processRow bodyText commentPages row).commentCountWrite
      = some (toString (fetchComments commentPages).all_comments.length) ∧
    (processRow bodyText commentPages row).commentsRowWrite
      = some ([to_str_safe ((padRow row).getD 0 ""), to_str_safe ((padRow row).getD 1 ""),
          to_str_safe ((padRow row).getD 2 ""), to_str_safe ((padRow row).getD 3 ""),
          toString (fetchComments commentPages).all_comments.length]
          ++ (fetchComments commentPages).page_strings) :=
  processRow_skip_body bodyText commentPages row hurl hne

/-- Witness for C4 at a concrete row whose body-page-1 cell holds ordinary
text: no body fetch, no body write, comment writes still issued. -/
theorem row_with_body_not_refetched_witness :
    (processRow (fun _ => "fresh") (fun _ => [])
        ["https://news.yahoo.co.jp/articles/x", "t", "d", "s", "old body"]).bodyWrite
      = none ∧
    (processRow (fun _ => "fresh") (fun _ => [])
        ["https://news.yahoo.co.jp/articles/x", "t", "d", "s", "old body"]).bodyFetched
      = [] ∧
    (processRow (fun _ => "fresh") (fun _ => [])
        ["https://news.yahoo.co.jp/articles/x", "t", "d", "s", "old body"]).commentCountWrite
      = some (toString (fetchComments (fun _ => [])).all_comments.length) := by
  have h := row_with_body_not_refetched (fun _ => "fresh") (fun _ => [])
    ["https://news.yahoo.co.jp/articles/x", "t", "d", "s", "old body"]
    (by decide) (by decide) (by decide)
  exact ⟨h.1, h.2.1, h.2.2.1⟩

/-- C9.  On an article row, the body-fetch gate fires only when the
trimmed body-page-1 cell is completely empty: a cell holding the exact
sentinel `本文取得不可` (or any other non-blank text) is treated as
already fetched — no body page is requested and no body write issued —
while an empty cell starts the fetch at page 1. -/
theorem sentinel_gates_body_fetch (bodyText : Nat → String)
    (commentPages : Nat → List String) (row : List String)
    (hurl : startswith (to_str_safe ((padRow row).getD 0 "")) ARTICLE_URL_STEM = true) :
    ((padRow row).getD 4 "" = BODY_UNAVAILABLE →
      (processRow bodyText commentPages row).bodyFetched = [] ∧
      (processRow bodyText commentPages row).bodyWrite = none) ∧
    (to_str_safe ((padRow row).getD 4 "") ≠ "" →
      (processRow bodyText commentPages row).bodyFetched = []) ∧
    (to_str_safe ((padRow row).getD 4 "") = "" →
      (processRow bodyText commentPages row).bodyFetched.head? = some 1) := by
  refine ⟨?_, ?_, ?_⟩
  · intro hs
    have hne : to_str_safe ((padRow row).getD 4 "") ≠ "" := by
      rw [hs]
      decide
    have h := processRow_skip_body bodyText commentPages row hurl hne
    exact ⟨h.2.1, h.1⟩
  · intro hne
    exact (processRow_skip_body bodyText commentPages row hurl hne).2.1
  · intro hemp
    exact processRow_fetch_starts bodyText commentPages row hurl hemp

/-- Witness for C9: a row holding the sentinel is not re-fetched; a row
with an empty body-page-1 cell starts fetching at page 1. -/
theorem sentinel_gates_body_fetch_witness :
    (processRow (fun _ => "fresh") (fun _ => [])
        ["https://news.yahoo.co.jp/articles/x", "t", "d", "s", "本文取得不可"]).bodyFetched
      = [] ∧
    (processRow (fun _ => "fresh") (fun _ => [])
        ["https://news.yahoo.co.jp/articles/x", "t", "d", "s", "本文取得不可"]).bodyWrite
      = none ∧
    (processRow (fun _ => "fresh") (fun _ => [])
        ["https://news.yahoo.co.jp/articles/x", "t", "d", "s", ""]).bodyFetched.head?
      = some 1 := by
  have h1 := sentinel_gates_body_fetch (fun _ => "fresh") (fun _ => [])
    ["https://news.yahoo.co.jp/articles/x", "t", "d", "s", "本文取得不可"] (by decide)
  have h2 := sentinel_gates_body_fetch (fun _ => "fresh") (fun _ => [])
    ["https://news.yahoo.co.jp/articles/x", "t", "d", "s", ""] (by decide)
  obtain ⟨ha, -, -⟩ := h1
  obtain ⟨-, -, hc⟩ := h2
  have has := ha (by decide)
  exact ⟨has.1, has.2, hc (by decide)⟩

/-- Witness for C3 at a concrete input: pages 1 and 2 yield text, page 3
is empty, the bound is the source's `MAX_BODY_PAGES = 10`: exactly the two
preceding pages are populated and pages 1, 2, 3 are fetched. -/
theorem body_fetch_first_empty_page_witness :
    (fetchBodyFresh bodyTextTwoPages MAX_BODY_PAGES).pages
        = ["p1", "p2", "", "", "", "", "", "", "", ""]
      ∧ (fetchBodyFresh bodyTextTwoPages MAX_BODY_PAGES).fetched = [1, 2, 3] := by
  have h := body_fetch_first_empty_page bodyTextTwoPages MAX_BODY_PAGES 3
    (by omega) (by simp [MAX_BODY_PAGES]) (by simp [MAX_BODY_PAGES])
    (by intro i h1 h2; interval_cases i <;> simp [bodyTextTwoPages]) rfl
  simpa [bodyTextTwoPages, List.range', MAX_BODY_PAGES, List.replicate] using h

end YahooNews
